/-
Verification of the invoice field-extraction pipeline.

This file gives a shallow embedding, in Lean 4, of the extraction code of the
repository (src/main.py, src/modules/docai_processor.py, src/app/main.py,
src/function/main.py and relatives) and proves or refutes the specified
properties of that code.

Conventions of the embedding:
* Python strings are Lean `String` / `List Char`; Python `None` for an
  optional value is `Option.none`.
* Python `Decimal` values are `ℚ` (exact rationals); the builtin `float`
  conversion is modelled by `roundF64`, IEEE-754 binary64 round-to-nearest,
  ties-to-even, on rationals (overflow modelled as an exception).
* Python regular expressions over literal alternations are modelled by
  dedicated scanning functions that reproduce `re` semantics (leftmost match,
  alternatives tried in pattern order, greedy quantifiers) for exactly the
  patterns appearing in the source.
* Code that can raise is modelled in `Except String`; callers that catch
  exceptions pattern-match on the result.
-/
import Mathlib

set_option maxRecDepth 10000

namespace Invoice

/-! ## Character classes (CPython `str`/`re` semantics) -/

/-- The whitespace characters of CPython: matched by the regex class `\s`
(with the default Unicode semantics of Python 3) and stripped by
`str.strip()`.  Includes the ideographic space U+3000 used in the invoices. -/
def isPyWs (c : Char) : Bool :=
  c = ' ' || c = '\t' || c = '\n' || c = '\r' || c = '\x0b' || c = '\x0c' ||
  c = '\x1c' || c = '\x1d' || c = '\x1e' || c = '\x1f' || c = '\x85' ||
  c = '\xa0' || c = ' ' ||
  (' ' ≤ c && c ≤ ' ') ||
  c = ' ' || c = ' ' || c = ' ' || c = ' ' || c = '　'

/-- ASCII decimal digit, the `\d` class (the rare non-ASCII Unicode decimal
digits, which CPython's `\d` also matches, do not occur in the source domain
and are not modelled). -/
def isDigitChar (c : Char) : Bool :=
  '0' ≤ c && c ≤ '9'

/-- The class `[A-Za-z0-9\.\-_]` of `token_pat` in `_guess_tool_name`. -/
def isToolAscii (c : Char) : Bool :=
  ('A' ≤ c && c ≤ 'Z') || ('a' ≤ c && c ≤ 'z') || isDigitChar c ||
  c = '.' || c = '-' || c = '_'

/-- The class `[ァ-ンヴー]` of `token_pat` (katakana run). -/
def isKatakana (c : Char) : Bool :=
  ('ァ' ≤ c && c ≤ 'ン') || c = 'ヴ' || c = 'ー'

/-- ASCII lowercasing, Python `str.lower()` restricted to ASCII letters
(entity type identifiers are ASCII). -/
def toLowerAscii (c : Char) : Char :=
  if 'A' ≤ c && c ≤ 'Z' then Char.ofNat (c.toNat + 32) else c

def lowerStr (s : String) : String :=
  ⟨s.data.map toLowerAscii⟩

/-! ## Basic string helpers -/

/-- Is `pat` a prefix of `cs`? -/
def litPre : List Char → List Char → Bool
  | [], _ => true
  | _ :: _, [] => false
  | p :: ps, c :: cs => p = c && litPre ps cs

/-- Python's substring containment `pat in s`. -/
def containsLit (pat : List Char) : List Char → Bool
  | [] => litPre pat []
  | c :: cs => litPre pat (c :: cs) || containsLit pat cs

/-- Python `str.strip()`: drop leading and trailing whitespace. -/
def pyStripL (cs : List Char) : List Char := cs.dropWhile isPyWs

def pyStripChars (cs : List Char) : List Char :=
  ((cs.dropWhile isPyWs).reverse.dropWhile isPyWs).reverse

def pyStrip (s : String) : String := ⟨pyStripChars s.data⟩

/-- Python slicing `s[a:b]` for non-negative indices (with clamping). -/
def pySlice (s : String) (a b : Nat) : String :=
  ⟨(s.data.drop a).take (b - a)⟩

/-- Python `str.splitlines()` boundary characters (besides `\r\n` handled
as a pair). -/
def isLineBreak (c : Char) : Bool :=
  c = '\n' || c = '\r' || c = '\x0b' || c = '\x0c' ||
  c = '\x1c' || c = '\x1d' || c = '\x1e' || c = '\x85' ||
  c = ' ' || c = ' '

/-- Python `str.splitlines()` (no trailing empty line for a trailing break). -/
def splitlinesAux : List Char → List Char → List String
  | acc, [] => if acc.isEmpty then [] else [⟨acc.reverse⟩]
  | acc, '\r' :: '\n' :: rest => ⟨acc.reverse⟩ :: splitlinesAux [] rest
  | acc, c :: rest =>
    if isLineBreak c then ⟨acc.reverse⟩ :: splitlinesAux [] rest
    else splitlinesAux (c :: acc) rest

def pySplitlines (s : String) : List String := splitlinesAux [] s.data

/-- `[ln.strip() for ln in text.splitlines() if ln.strip()]`, the line
normalization shared by every extractor of the repository. -/
def procLines (text : String) : List String :=
  ((pySplitlines text).map pyStrip).filter (fun ln => !ln.isEmpty)

/-- `" ".join(lines)`. -/
def joinSpace : List String → String
  | [] => ""
  | [l] => l
  | l :: ls => l ++ " " ++ joinSpace ls

/-! ## `re.sub` with a literal alternation

`reSubLits subs fuel cs` reproduces `re.sub(p1|p2|...,"rep_i")` for literal
alternatives: scan left to right, at each position try the alternatives in
pattern order, on a match emit the replacement and continue *after* the
matched text (the replacement is not rescanned), otherwise keep one character
and move on.  `fuel ≥ cs.length` always suffices since every step consumes at
least one character. -/

/-- First substitution pair (in alternation order) whose pattern is a prefix
of `cs`. -/
def firstSub (subs : List (List Char × List Char)) (cs : List Char) :
    Option (List Char × List Char) :=
  subs.find? (fun pr => litPre pr.1 cs)

def reSubLits (subs : List (List Char × List Char)) :
    Nat → List Char → List Char
  | 0, cs => cs
  | _ + 1, [] => []
  | fuel + 1, c :: rest =>
    match firstSub subs (c :: rest) with
    | some pr => pr.2 ++ reSubLits subs fuel ((c :: rest).drop pr.1.length)
    | none => c :: reSubLits subs fuel rest

/-- Run `reSubLits` with adequate fuel. -/
def reSubRun (subs : List (List Char × List Char)) (cs : List Char) :
    List Char :=
  reSubLits subs cs.length cs

/-! ## Vendor-name normalization

`normalize_vendor` of src/function/main.py (identical to the one of
src/update_kintone_from_docai.py up to the final `strip`):
remove the legal-entity tokens `株式会社`, `（株）`, `㈱`, then all
whitespace, then strip. -/

def corpTokens3 : List (List Char × List Char) :=
  [("株式会社".data, []), ("（株）".data, []), ("㈱".data, [])]

def normalize_vendor (name : String) : String :=
  if name = "" then ""
  else
    let noCorp := reSubRun corpTokens3 name.data
    let noWs := noCorp.filter (fun c => !isPyWs c)
    pyStrip ⟨noWs⟩

/-! `normalize_vendor_name` of src/modules/docai_processor.py: remove the
legal-entity tokens `株式会社`, `（株）`, `㈱`, `(株)`, `有限会社`, fix the
OCR duplication `リンクク` → `リンク`, remove whitespace; if everything was
removed, return the original name. -/

def corpTokens5 : List (List Char × List Char) :=
  [("株式会社".data, []), ("（株）".data, []), ("㈱".data, []),
   ("(株)".data, []), ("有限会社".data, [])]

def ocrFixes : List (List Char × List Char) :=
  [("リンクク".data, "リンク".data)]

/-- The `normalized` value computed inside `normalize_vendor_name` before the
final falsiness check. -/
def nvnCore (name : String) : String :=
  let noCorp := reSubRun corpTokens5 name.data
  let fixed := reSubRun ocrFixes noCorp
  ⟨fixed.filter (fun c => !isPyWs c)⟩

/-- `normalize_vendor_name(name)`; the argument is `Option String` so that a
Python `None` input (returned unchanged) is representable. -/
def normalize_vendor_name : Option String → Option String
  | none => none
  | some name =>
    if name = "" then some name
    else
      let normalized := nvnCore name
      if normalized ≠ "" then some (pyStrip normalized) else some name

/-! ## Kernel-reducible rational operations

Batteries marks `Rat.add`, `Rat.mul`, `Rat.sub`, `Rat.div`, `Rat.inv` and
`Rat.ofScientific` as `@[irreducible]`, which blocks `decide`/`rfl`
evaluation of concrete results.  The embedding therefore computes with
`mkRat` and the `num`/`den` projections directly; the bridge lemmas right
after the definitions show these agree with the standard operations, so
theorem statements can use the ordinary arithmetic notation. -/

def qOfInt (n : ℤ) : ℚ := mkRat n 1

def qAdd (a b : ℚ) : ℚ := mkRat (a.num * b.den + b.num * a.den) (a.den * b.den)

def qSub (a b : ℚ) : ℚ := mkRat (a.num * b.den - b.num * a.den) (a.den * b.den)

def qMul (a b : ℚ) : ℚ := mkRat (a.num * b.num) (a.den * b.den)

def qNeg (a : ℚ) : ℚ := mkRat (-a.num) a.den

def qAbs (a : ℚ) : ℚ := if a.num < 0 then qNeg a else a

/-- `a < b` as a boolean (`Rat.blt` is the comparison behind `<` on `ℚ`). -/
def qLt (a b : ℚ) : Bool := Rat.blt a b

theorem qOfInt_eq (n : ℤ) : qOfInt n = (n : ℚ) := by
  simp [qOfInt]

theorem qNeg_eq (a : ℚ) : qNeg a = -a := by
  rw [qNeg, show -a.num = (-a).num from rfl, show a.den = (-a).den from rfl,
    Rat.mkRat_self]

theorem qAdd_eq (a b : ℚ) : qAdd a b = a + b := by
  have ha : (a.den : ℚ) ≠ 0 := by
    exact_mod_cast a.den_nz
  have hb : (b.den : ℚ) ≠ 0 := by
    exact_mod_cast b.den_nz
  rw [qAdd, Rat.mkRat_eq_divInt, Rat.divInt_eq_div]
  conv_rhs => rw [← Rat.num_div_den a, ← Rat.num_div_den b]
  rw [div_add_div _ _ ha hb]
  push_cast
  ring_nf

theorem qSub_eq (a b : ℚ) : qSub a b = a - b := by
  have ha : (a.den : ℚ) ≠ 0 := by
    exact_mod_cast a.den_nz
  have hb : (b.den : ℚ) ≠ 0 := by
    exact_mod_cast b.den_nz
  rw [qSub, Rat.mkRat_eq_divInt, Rat.divInt_eq_div]
  conv_rhs => rw [← Rat.num_div_den a, ← Rat.num_div_den b]
  rw [div_sub_div _ _ ha hb]
  push_cast
  ring_nf

theorem qMul_eq (a b : ℚ) : qMul a b = a * b := by
  have ha : (a.den : ℚ) ≠ 0 := by
    exact_mod_cast a.den_nz
  have hb : (b.den : ℚ) ≠ 0 := by
    exact_mod_cast b.den_nz
  rw [qMul, Rat.mkRat_eq_divInt, Rat.divInt_eq_div]
  conv_rhs => rw [← Rat.num_div_den a, ← Rat.num_div_den b]
  rw [div_mul_div_comm]
  push_cast
  ring_nf

theorem qAbs_eq (a : ℚ) : qAbs a = |a| := by
  unfold qAbs
  by_cases h : a.num < 0
  · have ha : a < 0 := by
      by_contra hc
      exact absurd (Rat.num_nonneg.mpr (not_lt.mp hc)) (not_le.mpr h)
    rw [if_pos h, qNeg_eq, abs_of_neg ha]
  · rw [if_neg h, abs_of_nonneg (Rat.num_nonneg.mp (not_lt.mp h))]

/-! ## Decimal parsing (`decimal.Decimal` on the reachable inputs)

Every string the code passes to `Decimal(...)` has first been filtered to
digits, commas and periods (or matched by a numeric regex that allows at
most a leading minus sign), so the reachable fragment of the `Decimal`
string grammar is: optional `-`, digits with at most one `.`, at least one
digit.  Anything else raises `InvalidOperation`, modelled as `none`. -/

/-- Value of a most-significant-first digit list. -/
def digitsVal (cs : List Char) : Nat :=
  cs.foldl (fun n c => n * 10 + (c.toNat - 48)) 0

/-- Split at the first `.`; `none` when a second `.` exists. -/
def dotSplitAux (acc : List Char) : List Char → Option (List Char × List Char)
  | [] => some (acc.reverse, [])
  | c :: rest =>
    if c = '.' then
      if rest.any (fun c => c = '.') then none else some (acc.reverse, rest)
    else dotSplitAux (c :: acc) rest

/-- Parse a `Decimal` literal of the reachable grammar to its exact value. -/
def parseDecLit (cs : List Char) : Option ℚ :=
  let neg : Bool := cs.headD ' ' = '-'
  let body := if neg then cs.tail else cs
  match dotSplitAux [] body with
  | none => none
  | some (ip, fp) =>
    if ip.all isDigitChar && fp.all isDigitChar && !(ip.isEmpty && fp.isEmpty)
    then
      let v : ℚ :=
        mkRat (digitsVal ip * 10 ^ fp.length + digitsVal fp : Nat) (10 ^ fp.length)
      some (if neg then qNeg v else v)
    else none

/-- `_to_decimal` of src/main.py (and src/app/parser.py):
`Decimal(str(x).replace(",", "").strip())`, `None` on `InvalidOperation`. -/
def main_to_decimal : Option String → Option ℚ
  | none => none
  | some s => parseDecLit (pyStripChars (s.data.filter (fun c => c ≠ ',')))

/-- `_to_decimal` of src/modules/docai_processor.py: keep only digits,
commas and periods, `None` if nothing is left, drop the commas, `Decimal`. -/
def docai_to_decimal : Option String → Option ℚ
  | none => none
  | some str =>
    let s := str.data.filter (fun c => isDigitChar c || c = ',' || c = '.')
    if s.isEmpty then none
    else parseDecLit (s.filter (fun c => c ≠ ','))

/-- `_to_decimal` of src/app/main.py: same filter, then commas are removed
both when a period is present and when it is not (the two `if` branches of
the source collapse to unconditional comma removal). -/
def app_to_decimal : Option String → Option ℚ
  | none => none
  | some str =>
    let s := str.data.filter (fun c => isDigitChar c || c = ',' || c = '.')
    if s.isEmpty then none
    else
      let s2 :=
        if s.any (fun c => c = ',') && s.any (fun c => c = '.') then
          s.filter (fun c => c ≠ ',')
        else if s.any (fun c => c = ',') then s.filter (fun c => c ≠ ',')
        else s
      parseDecLit s2

/-- Modelled from the spec (§4.1, §8), for comparison with the parsers: the
mathematically exact value of a well-formed decimal-like string — the digits
before the period form the integer part, the digits after it the fractional
part, and commas (thousands separators) are ignored wherever they stand. -/
def specDecimalValue (s : String) : ℚ :=
  let intDigits := (s.data.takeWhile (fun c => c ≠ '.')).filter isDigitChar
  let fracDigits :=
    ((s.data.dropWhile (fun c => c ≠ '.')).drop 1).filter isDigitChar
  mkRat (digitsVal intDigits * 10 ^ fracDigits.length + digitsVal fracDigits : Nat)
    (10 ^ fracDigits.length)

/-- A well-formed decimal-like string: digits, commas and at most one
period, with at least one digit. -/
def wellFormedDec (s : String) : Bool :=
  s.data.all (fun c => isDigitChar c || c = ',' || c = '.') &&
  (s.data.filter (fun c => c = '.')).length ≤ 1 &&
  s.data.any isDigitChar

/-! ## IEEE-754 binary64 rounding

Python's `float(...)` conversions (`float(Decimal)`, `float` values produced
by `json.loads`) are modelled by `roundF64`: round-to-nearest, ties-to-even
at 53 significand bits, with the subnormal quantum below `2^-1022`.  The
exponent is treated as unbounded above (CPython's overflow behaviours — an
IEEE infinity for `float(str)`/`float(Decimal)`, `OverflowError` for huge
ints — are not modelled; magnitudes near `2^1024` cannot arise from invoice
amounts). -/

def pow2 (k : ℤ) : ℚ :=
  if 0 ≤ k then mkRat (2 ^ k.toNat : Nat) 1 else mkRat 1 (2 ^ (-k).toNat)

def pow10 (k : ℤ) : ℚ :=
  if 0 ≤ k then mkRat (10 ^ k.toNat : Nat) 1 else mkRat 1 (10 ^ (-k).toNat)

/-- Round to the nearest integer, ties to even. -/
def rdHalfEven (x : ℚ) : ℤ :=
  let f := Rat.floor x
  let r := qSub x (qOfInt f)
  if qLt r (mkRat 1 2) then f
  else if qLt (mkRat 1 2) r then f + 1
  else if f % 2 = 0 then f else f + 1

def natLog2Aux : Nat → Nat → Nat
  | 0, _ => 0
  | fuel + 1, n => if n < 2 then 0 else natLog2Aux fuel (n / 2) + 1

/-- `⌊log₂ n⌋` for positive `n` (structural-recursion version of
`Nat.log2`, which is defined by well-founded recursion and does not
reduce). -/
def natLog2 (n : Nat) : Nat := natLog2Aux n n

/-- `⌊log₂ a⌋` for a positive rational. -/
def log2floorQ (a : ℚ) : ℤ :=
  let k : ℤ := (natLog2 a.num.natAbs : ℤ) - (natLog2 a.den : ℤ)
  if qLt a (pow2 k) then k - 1 else k

/-- Binary64 round-to-nearest-even (unbounded exponent above, see section
comment). -/
def roundF64 (q : ℚ) : ℚ :=
  if q.num = 0 then q
  else
    let a := qAbs q
    let e := log2floorQ a
    let mag : ℚ :=
      if e < -1022 then
        qMul (qOfInt (rdHalfEven (qMul a (pow2 1074)))) (pow2 (-1074))
      else
        qMul (qOfInt (rdHalfEven (qMul a (pow2 (52 - e))))) (pow2 (e - 52))
    if q.num < 0 then qNeg mag else mag

/-- Python `int(...)` on a `Decimal`/rational: truncation toward zero. -/
def intTrunc (q : ℚ) : ℤ := q.num.tdiv (q.den : ℤ)

/-! ## Formatting -/

def natDigitsAux : Nat → Nat → List Char → List Char
  | 0, _, acc => acc
  | fuel + 1, n, acc =>
    if n < 10 then Char.ofNat (48 + n) :: acc
    else natDigitsAux fuel (n / 10) (Char.ofNat (48 + n % 10) :: acc)

/-- Decimal digits of a natural number, most significant first. -/
def natDigitStr (n : Nat) : List Char := natDigitsAux (n + 1) n []

def chunk3 : Nat → List Char → List (List Char)
  | 0, _ => []
  | _ + 1, [] => []
  | fuel + 1, l => l.take 3 :: chunk3 fuel (l.drop 3)

/-- Python `f"{n:,}"`: thousands-grouped decimal representation. -/
def groupComma (n : ℤ) : String :=
  let ds := natDigitStr n.natAbs
  let grouped :=
    List.intercalate [','] (((chunk3 (ds.length + 1) ds.reverse).map List.reverse).reverse)
  ⟨(if n < 0 then ['-'] else []) ++ grouped⟩

def isLeap (y : Nat) : Bool := (y % 4 = 0 && y % 100 ≠ 0) || y % 400 = 0

def daysInMonth (y mo : Nat) : Nat :=
  if mo = 2 then (if isLeap y then 29 else 28)
  else if mo = 4 || mo = 6 || mo = 9 || mo = 11 then 30
  else 31

/-- The dates accepted by `datetime.datetime(y, mo, d)` (a `ValueError` is
raised outside these bounds). -/
def validDate (y mo d : Nat) : Bool :=
  1 ≤ y && y ≤ 9999 && 1 ≤ mo && mo ≤ 12 && 1 ≤ d && d ≤ daysInMonth y mo

def padZero (k : Nat) (cs : List Char) : List Char :=
  List.replicate (k - cs.length) '0' ++ cs

/-- `datetime.date(y, mo, d).isoformat()`. -/
def isoFmt (y mo d : Nat) : String :=
  ⟨padZero 4 (natDigitStr y) ++ '-' :: padZero 2 (natDigitStr mo) ++
   '-' :: padZero 2 (natDigitStr d)⟩

/-! ## Python/JSON values

`JVal` represents the Python values that flow through `json.loads` results
and the extraction dictionaries.  A JSON `null` and the Python `None` are
the same value (`jnull`); Python ints and finite floats are both `jnum`
(their distinction is not observable in the modelled code); the non-finite
floats that `json.loads` produces for its `NaN`/`Infinity`/`-Infinity`
constants are `jnan` and `jinf`. -/

inductive JVal where
  | jnull
  | jbool (b : Bool)
  | jnum (q : ℚ)
  | jnan
  | jinf (neg : Bool)
  | jstr (s : String)
  | jarr (xs : List JVal)
  | jobj (kvs : List (String × JVal))
  deriving Repr

/-- Python truthiness of a `JVal` (`float("nan")` and the infinities are
truthy). -/
def truthy : JVal → Bool
  | .jnull => false
  | .jbool b => b
  | .jnum q => !(q.num = 0)
  | .jnan => true
  | .jinf _ => true
  | .jstr s => !(s = "")
  | .jarr xs => !xs.isEmpty
  | .jobj kvs => !kvs.isEmpty

/-- A Python `dict` with string keys, as an association list without
duplicate keys (insertion order preserved, as in Python). -/
abbrev Dict := List (String × JVal)

def dget (d : Dict) (k : String) : Option JVal :=
  (List.find? (fun kv => kv.1 = k) d).map (fun kv => kv.2)

/-- `d.get(k)`: Python returns `None` both for an absent key and for a
stored `None`. -/
def pyGet (d : Dict) (k : String) : JVal := (dget d k).getD .jnull

/-- `d[k] = v`: overwrite in place if present (position kept), else append. -/
def dset (d : Dict) (k : String) (v : JVal) : Dict :=
  if (List.find? (fun kv => kv.1 = k) d).isSome then
    List.map (fun kv => if kv.1 = k then (k, v) else kv) d
  else d ++ [(k, v)]

/-- `any(d.values())`. -/
def anyTruthy (d : Dict) : Bool := List.any d (fun kv => truthy kv.2)

/-- Build a `dict` from parsed key/value pairs (a later duplicate key
overwrites, as in Python). -/
def dictFromPairs (kvs : List (String × JVal)) : Dict :=
  kvs.foldl (fun d kv => dset d kv.1 kv.2) []

/-! ## `json.loads`

A recursive-descent parser for the JSON accepted by Python's `json.loads`
with its default arguments: `null`/`true`/`false`, numbers (no leading
zeros, optional fraction and exponent), the non-standard constants
`NaN`/`Infinity`/`-Infinity` (which the default `parse_constant=float`
turns into non-finite floats), strings with the standard escapes (a
`\uXXXX` surrogate pair is not recombined — such input does not arise),
arrays and objects.  Numbers with a fraction or exponent decode to
binary64 floats (`roundF64`); plain integers decode exactly.  The parser
is fuelled; fuel bounds the recursion depth and `length + 2` always
suffices. -/

def skipJWs (cs : List Char) : List Char :=
  cs.dropWhile (fun c => c = ' ' || c = '\t' || c = '\n' || c = '\r')

def isHexChar (c : Char) : Bool :=
  isDigitChar c || ('a' ≤ c && c ≤ 'f') || ('A' ≤ c && c ≤ 'F')

def hexVal (c : Char) : Nat :=
  if isDigitChar c then c.toNat - 48
  else if 'a' ≤ c && c ≤ 'f' then c.toNat - 87
  else c.toNat - 55

def jParseNum (cs : List Char) : Option (ℚ × List Char) :=
  let (neg, r1) : Bool × List Char :=
    match cs with
    | '-' :: r => (true, r)
    | r => (false, r)
  if !isDigitChar (r1.headD ' ') then none
  else
    let ip := r1.takeWhile isDigitChar
    let r2 := r1.dropWhile isDigitChar
    if ip.length > 1 && ip.headD '0' = '0' then none
    else
      let (fp, r3) : List Char × List Char :=
        match r2 with
        | '.' :: r => (r.takeWhile isDigitChar, r.dropWhile isDigitChar)
        | _ => ([], r2)
      if r2.headD ' ' = '.' && fp.isEmpty then none
      else
        let (hasExp, expNeg, ep, r4) : Bool × Bool × List Char × List Char :=
          match r3 with
          | 'e' :: '+' :: r => (true, false, r.takeWhile isDigitChar, r.dropWhile isDigitChar)
          | 'e' :: '-' :: r => (true, true, r.takeWhile isDigitChar, r.dropWhile isDigitChar)
          | 'e' :: r => (true, false, r.takeWhile isDigitChar, r.dropWhile isDigitChar)
          | 'E' :: '+' :: r => (true, false, r.takeWhile isDigitChar, r.dropWhile isDigitChar)
          | 'E' :: '-' :: r => (true, true, r.takeWhile isDigitChar, r.dropWhile isDigitChar)
          | 'E' :: r => (true, false, r.takeWhile isDigitChar, r.dropWhile isDigitChar)
          | _ => (false, false, [], r3)
        if hasExp && ep.isEmpty then none
        else
          let mant : ℚ :=
            mkRat (digitsVal ip * 10 ^ fp.length + digitsVal fp : Nat) (10 ^ fp.length)
          let ex : ℤ := if expNeg then -(digitsVal ep : ℤ) else (digitsVal ep : ℤ)
          let v0 : ℚ := qMul (if neg then qNeg mant else mant) (pow10 ex)
          let v : ℚ := if fp.isEmpty && !hasExp then v0 else roundF64 v0
          some (v, r4)

def jParseStrAux : Nat → List Char → List Char → Option (String × List Char)
  | 0, _, _ => none
  | fuel + 1, acc, cs =>
    match cs with
    | [] => none
    | '"' :: rest => some (⟨acc.reverse⟩, rest)
    | '\\' :: e :: rest =>
      if e = '"' then jParseStrAux fuel ('"' :: acc) rest
      else if e = '\\' then jParseStrAux fuel ('\\' :: acc) rest
      else if e = '/' then jParseStrAux fuel ('/' :: acc) rest
      else if e = 'b' then jParseStrAux fuel ('\x08' :: acc) rest
      else if e = 'f' then jParseStrAux fuel ('\x0c' :: acc) rest
      else if e = 'n' then jParseStrAux fuel ('\n' :: acc) rest
      else if e = 'r' then jParseStrAux fuel ('\r' :: acc) rest
      else if e = 't' then jParseStrAux fuel ('\t' :: acc) rest
      else if e = 'u' then
        let hx := rest.take 4
        if hx.length = 4 && hx.all isHexChar then
          let n := hx.foldl (fun n c => n * 16 + hexVal c) 0
          jParseStrAux fuel (Char.ofNat n :: acc) (rest.drop 4)
        else none
      else none
    | c :: rest =>
      if c.toNat < 32 then none else jParseStrAux fuel (c :: acc) rest

mutual

def jParseVal : Nat → List Char → Option (JVal × List Char)
  | 0, _ => none
  | fuel + 1, cs0 =>
    let cs := skipJWs cs0
    match cs with
    | 'n' :: 'u' :: 'l' :: 'l' :: r => some (.jnull, r)
    | 't' :: 'r' :: 'u' :: 'e' :: r => some (.jbool true, r)
    | 'f' :: 'a' :: 'l' :: 's' :: 'e' :: r => some (.jbool false, r)
    | 'N' :: 'a' :: 'N' :: r => some (.jnan, r)
    | 'I' :: 'n' :: 'f' :: 'i' :: 'n' :: 'i' :: 't' :: 'y' :: r =>
      some (.jinf false, r)
    | '-' :: 'I' :: 'n' :: 'f' :: 'i' :: 'n' :: 'i' :: 't' :: 'y' :: r =>
      some (.jinf true, r)
    | '"' :: r =>
      (jParseStrAux (r.length + 1) [] r).map (fun p => (.jstr p.1, p.2))
    | '\x7b' :: r =>
      match skipJWs r with
      | '\x7d' :: r2 => some (.jobj [], r2)
      | r1 => (jParseObjItems fuel r1).map (fun p => (.jobj p.1, p.2))
    | '[' :: r =>
      match skipJWs r with
      | ']' :: r2 => some (.jarr [], r2)
      | r1 => (jParseArrItems fuel r1).map (fun p => (.jarr p.1, p.2))
    | _ => (jParseNum cs).map (fun p => (.jnum p.1, p.2))

def jParseArrItems : Nat → List Char → Option (List JVal × List Char)
  | 0, _ => none
  | fuel + 1, cs => do
    let (v, r) ← jParseVal fuel cs
    match skipJWs r with
    | ',' :: r2 =>
      let (vs, r3) ← jParseArrItems fuel r2
      pure (v :: vs, r3)
    | ']' :: r2 => pure ([v], r2)
    | _ => none

def jParseObjItems : Nat → List Char → Option (List (String × JVal) × List Char)
  | 0, _ => none
  | fuel + 1, cs => do
    match skipJWs cs with
    | '"' :: r => do
      let (k, r2) ← jParseStrAux (r.length + 1) [] r
      match skipJWs r2 with
      | ':' :: r4 => do
        let (v, r5) ← jParseVal fuel r4
        match skipJWs r5 with
        | ',' :: r7 =>
          let (kvs, r8) ← jParseObjItems fuel r7
          pure ((k, v) :: kvs, r8)
        | '\x7d' :: r7 => pure ([(k, v)], r7)
        | _ => none
      | _ => none
    | _ => none

end

/-- `json.loads(s)`: parse one JSON value spanning the whole string. -/
def jsonLoads (s : String) : Option JVal :=
  match jParseVal (s.length + 2) s.data with
  | some (v, rest) => if (skipJWs rest).isEmpty then some v else none
  | none => none

/-! ## `float(...)` -/

/-- A Python binary64 float value: finite (carried as its exact rational
value), a NaN, or a signed infinity.  These are what `float(...)` returns
and what `json.loads`'s default `parse_constant=float` produces for the
`NaN`/`Infinity`/`-Infinity` constants. -/
inductive PyF where
  | fin (q : ℚ)
  | pnan
  | pinf (neg : Bool)
  deriving Repr, DecidableEq

/-- Python `float(s)` on a string: after stripping, an optional sign
followed by either a case-insensitive `inf`/`infinity`/`nan` literal or
the plain decimal grammar (digits with an optional point, optional
exponent); digit underscores are not modelled (they do not arise).  A
finite result is the binary64 rounding of the literal's value. -/
def parseFloatLit (s : String) : Option PyF :=
  let cs := pyStripChars s.data
  let (neg, r1) : Bool × List Char :=
    match cs with
    | '-' :: r => (true, r)
    | '+' :: r => (false, r)
    | r => (false, r)
  let low := r1.map toLowerAscii
  if low = ['i', 'n', 'f'] || low = ['i', 'n', 'f', 'i', 'n', 'i', 't', 'y'] then
    some (.pinf neg)
  else if low = ['n', 'a', 'n'] then some .pnan
  else
  let ip := r1.takeWhile isDigitChar
  let r2 := r1.dropWhile isDigitChar
  let (fp, r3) : List Char × List Char :=
    match r2 with
    | '.' :: r => (r.takeWhile isDigitChar, r.dropWhile isDigitChar)
    | _ => ([], r2)
  if ip.isEmpty && fp.isEmpty then none
  else
    let (hasExp, expNeg, ep, r4) : Bool × Bool × List Char × List Char :=
      match r3 with
      | 'e' :: '+' :: r => (true, false, r.takeWhile isDigitChar, r.dropWhile isDigitChar)
      | 'e' :: '-' :: r => (true, true, r.takeWhile isDigitChar, r.dropWhile isDigitChar)
      | 'e' :: r => (true, false, r.takeWhile isDigitChar, r.dropWhile isDigitChar)
      | 'E' :: '+' :: r => (true, false, r.takeWhile isDigitChar, r.dropWhile isDigitChar)
      | 'E' :: '-' :: r => (true, true, r.takeWhile isDigitChar, r.dropWhile isDigitChar)
      | 'E' :: r => (true, false, r.takeWhile isDigitChar, r.dropWhile isDigitChar)
      | _ => (false, false, [], r3)
    if hasExp && ep.isEmpty then none
    else if !r4.isEmpty then none
    else
      let mant : ℚ :=
        mkRat (digitsVal ip * 10 ^ fp.length + digitsVal fp : Nat) (10 ^ fp.length)
      let ex : ℤ := if expNeg then -(digitsVal ep : ℤ) else (digitsVal ep : ℤ)
      some (.fin (roundF64 (qMul (if neg then qNeg mant else mant) (pow10 ex))))

/-- Python `float(v)` on a decoded JSON value: finite numbers are rounded
to binary64, non-finite floats pass through, booleans convert, strings are
parsed, everything else raises (`TypeError`, or `ValueError` for an
unparsable string). -/
def pyFloat : JVal → Except String PyF
  | .jnum q => .ok (.fin (roundF64 q))
  | .jnan => .ok .pnan
  | .jinf neg => .ok (.pinf neg)
  | .jbool b => .ok (.fin (if b then qOfInt 1 else qOfInt 0))
  | .jstr s =>
    match parseFloatLit s with
    | some f => .ok f
    | none => .error "ValueError: could not convert string to float"
  | _ => .error "TypeError: float() argument"

/-! ## `re.search(r"\{.*\}", raw, re.S)`

With `re.S` the greedy `.*` spans newlines, so the match, when it exists,
runs from the first `{` to the last `}` after it. -/

def braceExtract (s : String) : Option String :=
  let cs := s.data
  match cs.findIdx? (fun c => c = '\x7b') with
  | none => none
  | some i =>
    let after := cs.drop i
    match after.reverse.findIdx? (fun c => c = '\x7d') with
    | none => none
    | some rj =>
      let matchLen := after.length - rj
      if 2 ≤ matchLen then some ⟨after.take matchLen⟩ else none

/-! ## The regular expressions of the extractors

Each pattern of the source is modelled by a dedicated scanner that
reproduces `re.search`/`re.findall` semantics for that pattern: the match
is leftmost, alternatives are tried in pattern order at each position, and
greedy quantifiers backtrack.  For the specific patterns here the only
quantifier that genuinely needs backtracking is a `X*` whose class overlaps
the class that follows; those places are treated explicitly below. -/

/-- Try the alternatives (each returning its match length at this position)
in pattern order; on a keyword match run `tail` after it, and on tail
failure fall through to the next alternative. -/
def tryKwsAt {α : Type} (tail : List Char → Option α) :
    List (List Char → Option Nat) → List Char → Option α
  | [], _ => none
  | k :: ks, cs =>
    match k cs with
    | some len =>
      match tail (cs.drop len) with
      | some a => some a
      | none => tryKwsAt tail ks cs
    | none => tryKwsAt tail ks cs

/-- `re.search` for `(?:kw1|kw2|...)tail`: scan start positions left to
right. -/
def reSearchAux {α : Type} (kws : List (List Char → Option Nat))
    (tail : List Char → Option α) : List Char → Option α
  | [] => tryKwsAt tail kws []
  | c :: rest =>
    match tryKwsAt tail kws (c :: rest) with
    | some a => some a
    | none => reSearchAux kws tail rest

def reSearchKwTail {α : Type} (kws : List (List Char → Option Nat))
    (tail : List Char → Option α) (s : String) : Option α :=
  reSearchAux kws tail s.data

/-- A literal alternative. -/
def litKw (kw : String) (cs : List Char) : Option Nat :=
  if litPre kw.data cs then some kw.data.length else none

/-- The variable-length alternative `金額[\s　]*税込` of the tax-inclusive
amount pattern in src/app/main.py. -/
def kingakuZeikomi (cs : List Char) : Option Nat :=
  if litPre "金額".data cs then
    let r := cs.drop 2
    let w := r.takeWhile isPyWs
    if litPre "税込".data (r.drop w.length) then some (2 + w.length + 2)
    else none
  else none

/-! ### Amount tails `[^¥￥\d]*[¥￥]?\s*(G+)`

`[^¥￥\d]*` is greedy but may give back characters that the final group
class `G` (digits and separators) can absorb, so the length `a` of that
prefix is tried from its maximum down to `0`, as the backtracking engine
does.  `[¥￥]?` and `\s*` are deterministic here because the characters
they could give back are never in `G`. -/

def isYen (c : Char) : Bool := c = '¥' || c = '￥'

/-- `\s*(G+)` at this position. -/
def wsGrp (grp : Char → Bool) (t : List Char) : Option (List Char) :=
  let t1 := t.dropWhile isPyWs
  let g := t1.takeWhile grp
  if g.isEmpty then none else some g

/-- `[¥￥]?\s*(G+)` at this position (currency sign consumed greedily). -/
def yenWsGrp (grp : Char → Bool) (t : List Char) : Option (List Char) :=
  match t with
  | c :: r =>
    if isYen c then
      match wsGrp grp r with
      | some g => some g
      | none => wsGrp grp t
    else wsGrp grp t
  | [] => wsGrp grp t

/-- Countdown over the length of the `[^¥￥\d]*` prefix. -/
def amtTailLoop (grp : Char → Bool) (cs : List Char) : Nat → Option (List Char)
  | 0 => yenWsGrp grp cs
  | a + 1 =>
    match yenWsGrp grp (cs.drop (a + 1)) with
    | some g => some g
    | none => amtTailLoop grp cs a

def amtTail (grp : Char → Bool) (cs : List Char) : Option (List Char) :=
  let amax := (cs.takeWhile (fun c => !(isDigitChar c || isYen c))).length
  amtTailLoop grp cs amax

/-- `re.search((?:kws)[^¥￥\d]*[¥￥]?\s*(G+), s)`, returning group 1. -/
def amtSearch (kws : List (List Char → Option Nat)) (grp : Char → Bool)
    (s : String) : Option String :=
  reSearchKwTail kws (fun t => (amtTail grp t).map (fun g => (⟨g⟩ : String))) s

def grpDigitsComma (c : Char) : Bool := isDigitChar c || c = ','
def grpDigitsCommaDot (c : Char) : Bool := isDigitChar c || c = ',' || c = '.'

/-! ### Date patterns `(\d{4})S1(\d{1,2})S2(\d{1,2})` -/

def charV (c : Char) : Nat := c.toNat - 48

/-- Final `(\d{1,2})`: greedy, two digits when available. -/
def dayAt (t : List Char) : Option Nat :=
  match t with
  | d1 :: d2 :: _ =>
    if isDigitChar d1 && isDigitChar d2 then some (10 * charV d1 + charV d2)
    else if isDigitChar d1 then some (charV d1)
    else none
  | [d1] => if isDigitChar d1 then some (charV d1) else none
  | [] => none

/-- `(\d{1,2})S2(\d{1,2})`: the month is greedy (two digits first) and
backtracks to one digit when the separator or the day then fails. -/
def moDay (sep2 : Char → Bool) (t : List Char) : Option (Nat × Nat) :=
  let try1 : Option (Nat × Nat) :=
    match t with
    | d1 :: s :: r =>
      if isDigitChar d1 && sep2 s then (dayAt r).map (fun dd => (charV d1, dd))
      else none
    | _ => none
  match t with
  | d1 :: d2 :: s :: r =>
    if isDigitChar d1 && isDigitChar d2 && sep2 s then
      match dayAt r with
      | some dd => some (10 * charV d1 + charV d2, dd)
      | none => try1
    else try1
  | _ => try1

/-- The full date pattern anchored at this position. -/
def dateAt (sep1 sep2 : Char → Bool) (t : List Char) : Option (Nat × Nat × Nat) :=
  let y := t.take 4
  if y.length = 4 && y.all isDigitChar then
    match t.drop 4 with
    | s :: r =>
      if sep1 s then (moDay sep2 r).map (fun p => (digitsVal y, p.1, p.2))
      else none
    | [] => none
  else none

/-- Leftmost match of the date pattern in a string. -/
def dateSearchAux (sep1 sep2 : Char → Bool) : List Char → Option (Nat × Nat × Nat)
  | [] => none
  | c :: rest =>
    match dateAt sep1 sep2 (c :: rest) with
    | some x => some x
    | none => dateSearchAux sep1 sep2 rest

def sepYa (c : Char) : Bool := c = '年' || c = '/' || c = '.' || c = '-'
def sepMo (c : Char) : Bool := c = '月' || c = '/' || c = '.' || c = '-'
def sepSlashDash (c : Char) : Bool := c = '/' || c = '-'

/-- `(\d{4})[年/.\-](\d{1,2})[月/.\-](\d{1,2})` searched in a string. -/
def dateSearchJp (s : String) : Option (Nat × Nat × Nat) :=
  dateSearchAux sepYa sepMo s.data

/-- `(\d{4})[/\-](\d{1,2})[/\-](\d{1,2})` (slash or dash separators)
searched in a string. -/
def dateSearchSlash (s : String) : Option (Nat × Nat × Nat) :=
  dateSearchAux sepSlashDash sepSlashDash s.data

/-- Tail `[^\d]*(\d{4})[年/.\-](\d{1,2})[月/.\-](\d{1,2})` of the due-date
fallback pattern of src/modules/docai_processor.py: the greedy `[^\d]*`
stops at the first digit and cannot usefully backtrack. -/
def dueTailDocai (t : List Char) : Option (Nat × Nat × Nat) :=
  dateAt sepYa sepMo (t.dropWhile (fun c => !isDigitChar c))

/-- `re.search((?:支払期限|お支払期日|入金期日)[^\d]*(\d{4})..., text)`. -/
def dueSearchDocai (s : String) : Option (Nat × Nat × Nat) :=
  reSearchKwTail [litKw "支払期限", litKw "お支払期日", litKw "入金期日"]
    dueTailDocai s

/-! ### Company pattern `(?:株式|有限)会社[^\s　\n]+` -/

/-- Match at this position: matched text and the rest after it. -/
def companyAt (cs : List Char) : Option (List Char × List Char) :=
  if litPre "株式会社".data cs || litPre "有限会社".data cs then
    let r := cs.drop 4
    let run := r.takeWhile (fun c => !isPyWs c)
    if run.isEmpty then none
    else some (cs.take 4 ++ run, r.drop run.length)
  else none

def companyFindAux : Nat → List Char → List String
  | 0, _ => []
  | _ + 1, [] => []
  | fuel + 1, c :: rest =>
    match companyAt (c :: rest) with
    | some (m, after) => (⟨m⟩ : String) :: companyFindAux fuel after
    | none => companyFindAux fuel rest

/-- `re.findall(r'(?:株式|有限)会社[^\s　\n]+', text)`. -/
def companyFindall (text : String) : List String :=
  companyFindAux text.length text.data

/-! ### Token pattern `[A-Za-z0-9\.\-_]{3,}|[ァ-ンヴー]{3,}` -/

def tokenFindAux : Nat → List Char → List String
  | 0, _ => []
  | _ + 1, [] => []
  | fuel + 1, c :: rest =>
    let cs := c :: rest
    let r1 := cs.takeWhile isToolAscii
    if 3 ≤ r1.length then (⟨r1⟩ : String) :: tokenFindAux fuel (cs.drop r1.length)
    else
      let r2 := cs.takeWhile isKatakana
      if 3 ≤ r2.length then (⟨r2⟩ : String) :: tokenFindAux fuel (cs.drop r2.length)
      else tokenFindAux fuel rest

/-- `token_pat.findall(s)`. -/
def tokenFindall (s : String) : List String :=
  tokenFindAux s.length s.data

/-! ### Department patterns of `_guess_department` -/

def isDeptChar (c : Char) : Bool :=
  !(isPyWs c || c = '/' || c = '(' || c = ')' || c = '（' || c = '）' ||
    c = '【' || c = '】' || c = '[' || c = ']')

/-- `([^\s　/()（）【】\[\]]{2,20})` at this position. -/
def grp20 (t : List Char) : Option (List Char) :=
  let run := t.takeWhile isDeptChar
  if 2 ≤ run.length then some (run.take 20) else none

/-- Tail `\s*[:：]?\s*([^\s　/()（）【】\[\]]{2,20})`: the optional colon is
taken greedily and given back when the group then fails (the colon itself
is a group character, so this backtracking is observable). -/
def deptTail (t : List Char) : Option (List Char) :=
  let t1 := t.dropWhile isPyWs
  let withColon : Option (List Char) :=
    match t1 with
    | c :: r =>
      if c = ':' || c = '：' then grp20 (r.dropWhile isPyWs) else none
    | [] => none
  match withColon with
  | some g => some g
  | none => grp20 t1

/-- `re.search(r"(?:部署|部|課)\s*[:：]?\s*(...)", text)`, group 1. -/
def deptSearch1 (s : String) : Option String :=
  reSearchKwTail [litKw "部署", litKw "部", litKw "課"]
    (fun t => (deptTail t).map (fun g => (⟨g⟩ : String))) s

/-- `re.search(r"(?:ご担当)\s*(...)", text)`, group 1. -/
def deptSearch2 (s : String) : Option String :=
  reSearchKwTail [litKw "ご担当"]
    (fun t => (grp20 (t.dropWhile isPyWs)).map (fun g => (⟨g⟩ : String))) s

/-! ### Numeric pattern `-?\d[\d,]*\.?\d*` of `_parse_amount` -/

def numAt (cs : List Char) : Option (List Char) :=
  let (sgn, r) : List Char × List Char :=
    match cs with
    | '-' :: rest => (['-'], rest)
    | rest => ([], rest)
  if isDigitChar (r.headD ' ') then
    let p1 := r.takeWhile grpDigitsComma
    let r1 := r.drop p1.length
    match r1 with
    | '.' :: r2 => some (sgn ++ p1 ++ '.' :: r2.takeWhile isDigitChar)
    | _ => some (sgn ++ p1)
  else none

def numSearchAux : List Char → Option (List Char)
  | [] => none
  | c :: rest =>
    match numAt (c :: rest) with
    | some m => some m
    | none => numSearchAux rest

/-- `_parse_amount` of src/main.py: search the numeric pattern, then
`_to_decimal` on the match. -/
def _parse_amount (text : Option String) : Option ℚ :=
  match text with
  | none => none
  | some s =>
    if s = "" then none
    else
      match numSearchAux s.data with
      | some m => main_to_decimal (some (⟨m⟩ : String))
      | none => none

/-- Does a line contain one of the literal keywords? (boolean `re.search`
over a literal alternation). -/
def containsAnyKw (kws : List String) (s : String) : Bool :=
  kws.any (fun k => containsLit k.data s.data)

/-- Wrap an optional string as a JSON/dict value. -/
def optStr : Option String → JVal
  | some s => .jstr s
  | none => .jnull

/-- Wrap an optional number as a JSON/dict value. -/
def optNum : Option ℚ → JVal
  | some q => .jnum q
  | none => .jnull

/-- Wrap an optional float value as a JSON/dict value. -/
def optFloat : Option PyF → JVal
  | some (.fin q) => .jnum q
  | some .pnan => .jnan
  | some (.pinf neg) => .jinf neg
  | none => .jnull

/-! ## src/modules/docai_processor.py — Gemini adapter and processor -/

namespace Docai

/-- The `fields` dictionary of `extract_with_gemini` (fixed keys `vendor`,
`subtotal`, `total`, `due_date`). -/
structure GFields where
  vendor : Option String
  subtotal : Option PyF
  total : Option PyF
  due_date : JVal
  deriving Repr

def initFields : GFields := ⟨none, none, none, .jnull⟩

/-- Lines 108–121 of docai_processor.py: strip the response text, take the
brace-delimited span, decode it as JSON; any failure leaves `ai_fields`
as the empty dict. -/
def geminiDecode (rawResp : String) : Dict :=
  let raw := pyStrip rawResp
  if raw = "" then []
  else
    match braceExtract raw with
    | none => []
    | some s =>
      match jsonLoads s with
      | some (.jobj kvs) => dictFromPairs kvs
      | _ => []

/-- Apply a sequence of `d[k] = v` assignments in order. -/
def applyUpdates (d : Dict) (us : List (String × JVal)) : Dict :=
  us.foldl (fun d kv => dset d kv.1 kv.2) d

/-- The assignments performed by the regex fallback block (lines 123–142),
in source order (`vendor`, `subtotal`, `total`, `due_date`), each present
only when its regex matched; an invalid calendar date in the due-date
match raises a `ValueError` that propagates to the adapter's outer
handler (the assignments made before the raise die with the discarded
dictionary). -/
def fallbackUpdates (text : String) : Except String (List (String × JVal)) :=
  let company := (companyFindall text).head?
  let amount_total :=
    amtSearch [litKw "合計", litKw "ご請求金額", litKw "総額"] grpDigitsComma text
  let amount_subtotal :=
    amtSearch [litKw "小計", litKw "税抜金額"] grpDigitsComma text
  let due := dueSearchDocai text
  let u1 : List (String × JVal) :=
    match company with
    | some c => [("vendor", JVal.jstr c)]
    | none => []
  let u2 : List (String × JVal) :=
    match amount_subtotal with
    | some g =>
      [("subtotal",
        match docai_to_decimal (some g) with
        | some q => if q.num = 0 then JVal.jnull else JVal.jnum (roundF64 q)
        | none => JVal.jnull)]
    | none => []
  let u3 : List (String × JVal) :=
    match amount_total with
    | some g =>
      [("total",
        match docai_to_decimal (some g) with
        | some q => if q.num = 0 then JVal.jnull else JVal.jnum (roundF64 q)
        | none => JVal.jnull)]
    | none => []
  match due with
  | some (y, mo, dd) =>
    if validDate y mo dd then
      .ok (u1 ++ u2 ++ u3 ++ [("due_date", JVal.jstr (isoFmt y mo dd))])
    else .error "ValueError: day is out of range for month"
  | none => .ok (u1 ++ u2 ++ u3)

/-- The regex fallback block applied to the current `ai_fields`. -/
def fallbackUpdate (text : String) (d0 : Dict) : Except String Dict :=
  (fallbackUpdates text).map (applyUpdates d0)

/-- The final `fields.update({...})` (lines 144–151): normalize the vendor,
convert the amounts with `float` (both raise on a truthy non-numeric
value), pass the due date through. -/
def finalize (d : Dict) : Except String GFields := do
  let vendor_raw := pyGet d "vendor"
  let vendor ←
    if truthy vendor_raw then
      match vendor_raw with
      | .jstr s => pure (normalize_vendor_name (some s))
      | _ => Except.error "TypeError: expected string or bytes-like object"
    else pure none
  let subtotal ←
    if truthy (pyGet d "subtotal") then (pyFloat (pyGet d "subtotal")).map some
    else pure none
  let total ←
    if truthy (pyGet d "total") then (pyFloat (pyGet d "total")).map some
    else pure none
  pure { vendor := vendor, subtotal := subtotal, total := total,
         due_date := pyGet d "due_date" }

/-- Catch-all of the adapter: any exception inside the `try` returns the
initial all-`None` fields. -/
def runExtract (r : Except String GFields) : GFields :=
  match r with
  | .ok f => f
  | .error _ => initFields

/-- `extract_with_gemini(text, project_id)`.  The generative-model call is
an upstream effect, passed in as `resp` (`.error` when the call raised,
`.ok s` when it returned response text `s`). -/
def extract_with_gemini (text : String) (resp : Except String String) : GFields :=
  if text.length < 40 then initFields
  else
    match resp with
    | .error _ => initFields
    | .ok rawResp =>
      let d0 := geminiDecode rawResp
      if d0.isEmpty || !anyTruthy d0 then
        runExtract ((fallbackUpdate text d0).bind finalize)
      else runExtract (finalize d0)

/-- What the regex tier alone produces: the fallback run on an empty
`ai_fields`, then normalized. -/
def regexTierResult (text : String) : GFields :=
  runExtract ((fallbackUpdate text []).bind finalize)

/-- `process_pdf` of docai_processor.py.  The OCR upstream (storage,
Document AI, environment lookups) is `ocr`; on success the Gemini adapter
runs with response `resp`; on an upstream exception the four field keys are
returned as `None` with an error `_source`. -/
def process_pdf (bucket blobName processorId location : String)
    (ocr : Except String String) (resp : Except String String) : Dict :=
  match ocr with
  | .ok text =>
    let f := extract_with_gemini text resp
    [("vendor", optStr f.vendor), ("subtotal", optFloat f.subtotal),
     ("total", optFloat f.total), ("due_date", f.due_date),
     ("_source", .jobj [("bucket", .jstr bucket), ("name", .jstr blobName),
        ("processor_id", .jstr processorId), ("location", .jstr location),
        ("status", .jstr "success")])]
  | .error msg =>
    [("vendor", .jnull), ("subtotal", .jnull), ("total", .jnull),
     ("due_date", .jnull),
     ("_source", .jobj [("bucket", .jstr bucket), ("name", .jstr blobName),
        ("status", .jstr "error"), ("error_message", .jstr msg)])]

end Docai

/-! ## src/main.py — entity-based extractor -/

namespace MainPy

/-- A Document AI entity as read by the code: category string, mention
text, and optionally the first text segment of its anchor. -/
structure Entity where
  type_ : String
  mention_text : String
  text_anchor : Option (Nat × Nat)

structure Doc where
  text : String
  entities : List Entity

/-- `_best_entity`: iterate the candidates in priority order and return the
first entity whose lowercased type contains the candidate as a substring. -/
def _best_entity (entities : List Entity) : List String → Option Entity
  | [] => none
  | cand :: cands =>
    match List.find? (fun e => containsLit cand.data (lowerStr e.type_).data) entities with
    | some e => some e
    | none => _best_entity entities cands

/-- `_entity_text`: the stripped mention text when non-empty, else the
stripped anchor slice of the document text, else `None`. -/
def _entity_text (doc : Doc) : Option Entity → Option String
  | none => none
  | some e =>
    if e.mention_text ≠ "" then some (pyStrip e.mention_text)
    else
      match e.text_anchor with
      | some (st, en) =>
        if doc.text ≠ "" then some (pyStrip (pySlice doc.text st en)) else none
      | none => none

/-- The boolean `key_pat.search(line)` for `(費目|商?品名|摘要|内容|サービス名?)`:
`商?品名` succeeds exactly where `品名` occurs and `サービス名?` exactly
where `サービス` occurs, so the search reduces to these containments. -/
def key_pat_hit (s : String) : Bool :=
  containsAnyKw ["費目", "品名", "摘要", "内容", "サービス"] s

/-- `candidates.sort(key=len, reverse=True); candidates[0]` (a stable sort,
so the first-seen longest candidate wins); also `max(cands, key=len)`. -/
def longestFirst (cands : List String) : Option String :=
  cands.foldl
    (fun best c =>
      match best with
      | none => some c
      | some b => if b.length < c.length then some c else some b)
    none

def guessToolLoop : List String → Option String
  | [] => none
  | ln :: rest =>
    if key_pat_hit ln then
      let candidates :=
        tokenFindall ln ++
          (match rest.head? with
           | some nxt => tokenFindall nxt
           | none => [])
      match longestFirst candidates with
      | some t => some t
      | none => guessToolLoop rest
    else guessToolLoop rest

/-- `_guess_tool_name`. -/
def _guess_tool_name (doc : Doc) : Option String :=
  match guessToolLoop (procLines doc.text) with
  | some t => some t
  | none => longestFirst (tokenFindall doc.text)

/-- `_guess_department`. -/
def _guess_department (doc : Doc) : Option String :=
  match deptSearch1 doc.text with
  | some g => some (pyStrip g)
  | none => (deptSearch2 doc.text).map pyStrip

/-- The parsed subtotal amount (`_parse_amount(_entity_text(...))` over the
subtotal entity-type candidates of line 114). -/
def subtotalOf (doc : Doc) : Option ℚ :=
  _parse_amount (_entity_text doc (_best_entity doc.entities
    ["subtotal", "net_amount", "amount_due_excluding_tax"]))

/-- The parsed total amount (line 115). -/
def totalOf (doc : Doc) : Option ℚ :=
  _parse_amount (_entity_text doc (_best_entity doc.entities
    ["total_amount", "amount_due", "grand_total", "total"]))

/-- The parsed dedicated tax-entity amount (lines 125–126). -/
def taxEntityOf (doc : Doc) : Option ℚ :=
  _parse_amount (_entity_text doc (_best_entity doc.entities
    ["tax_amount", "vat", "consumption_tax"]))

/-- `extract_fields` of src/main.py: the seven-key record.  The `float()`
conversions of lines 119–127 are the binary64 rounding `roundF64`. -/
def extract_fields (doc : Doc) : List (String × JVal) :=
  let entities := doc.entities
  let company := _entity_text doc (_best_entity entities
    ["supplier_name", "vendor_name", "seller_name", "merchant_name"])
  let subtotal := subtotalOf doc
  let total := totalOf doc
  let tax : Option ℚ :=
    match subtotal, total with
    | some s, some t => some (roundF64 (qSub t s))
    | _, _ => (taxEntityOf doc).map roundF64
  let due : Option String :=
    match _entity_text doc (_best_entity entities
      ["due_date", "payment_due_date", "payment_terms_due_date"]) with
    | none => none
    | some due_raw =>
      if due_raw = "" then none
      else
        match dateSearchSlash due_raw with
        | some (y, mo, d) =>
          if validDate y mo d then some (isoFmt y mo d) else none
        | none => none
  [("company", optStr company),
   ("tool", optStr (_guess_tool_name doc)),
   ("department", optStr (_guess_department doc)),
   ("amount_excl_tax", optNum (subtotal.map roundF64)),
   ("amount_incl_tax", optNum (total.map roundF64)),
   ("tax_amount", optNum tax),
   ("due_date", optStr due)]

/-- `process_pdf` of src/main.py: the download and Document AI call are the
upstream effect; on success the extracted fields plus `_source`, on any
exception only an error `_source`. -/
def process_pdf (bucket blobName processorId location : String)
    (upstream : Except String Doc) : List (String × JVal) :=
  match upstream with
  | .ok doc =>
    extract_fields doc ++
      [("_source", .jobj [("bucket", .jstr bucket), ("name", .jstr blobName),
         ("processor_id", .jstr processorId), ("location", .jstr location),
         ("status", .jstr "success")])]
  | .error msg =>
    [("_source", .jobj [("bucket", .jstr bucket), ("name", .jstr blobName),
       ("processor_id", .jstr processorId), ("location", .jstr location),
       ("status", .jstr "error"), ("error_message", .jstr msg)])]

end MainPy

/-! ## src/app/main.py — regex/heuristic extractor (`extract_from_text`) -/

namespace AppMain

/-- The fixed-key `fields` dictionary of `extract_from_text` (`tool` and
`department` are kept but never assigned by this variant). -/
structure Fields where
  company : Option String
  tool : Option String
  department : Option String
  amount_excl_tax : Option String
  amount_incl_tax : Option String
  due_date : Option String
  deriving Repr

def initFields : Fields := ⟨none, none, none, none, none, none⟩

def dueKeywords : List String :=
  ["支払期限", "支払い期限", "お支払期限", "お支払い期限", "入金期日",
   "ご入金日", "御入金日", "支払", "支払い", "お支払", "お支払い",
   "入金", "ご入金", "御入金", "まで", "迄"]

/-- One step of the inner window (`if i + j < len(lines)` and the first
date match of that line, required to be a valid calendar date). -/
def windowTry (lines : List String) (idx : Nat) : Option String :=
  if idx < lines.length then
    match dateSearchJp (lines.getD idx "") with
    | some (y, mo, d) => if validDate y mo d then some (isoFmt y mo d) else none
    | none => none
  else none

/-- The inner `for j in range(3)` window over the keyword line and the next
two lines; an invalid date and a missing date both move to the next line. -/
def windowScan (lines : List String) (i : Nat) : Option String :=
  match windowTry lines i with
  | some s => some s
  | none =>
    match windowTry lines (i + 1) with
    | some s => some s
    | none => windowTry lines (i + 2)

/-- The outer loop over lines: at each keyword line, scan its window; the
first window that yields a valid date wins. -/
def dueLoopAux (lines : List String) : List String → Nat → Option String
  | [], _ => none
  | ln :: rest, i =>
    if containsAnyKw dueKeywords ln then
      match windowScan lines i with
      | some s => some s
      | none => dueLoopAux lines rest (i + 1)
    else dueLoopAux lines rest (i + 1)

def dueScan (lines : List String) : Option String := dueLoopAux lines lines 0

def inclKws : List (List Char → Option Nat) :=
  [litKw "合計", litKw "総額", litKw "ご請求金額", litKw "請求金額", kingakuZeikomi]

def exclKws : List (List Char → Option Nat) :=
  [litKw "小計", litKw "税抜金額", litKw "税抜き金額", litKw "外税対象金額"]

/-- `extract_from_text` of src/app/main.py (the `tax_amount`-free variant of
lines 209–282): company by the legal-prefix pattern excluding the operating
entity, amounts by keyword-anchored scans over the space-joined lines and
formatted `f"{int(val):,}"`, due date by the windowed line scan. -/
def extract_from_text (text : String) : Fields :=
  if text = "" then initFields
  else
    let lines := procLines text
    let joined := joinSpace lines
    let company : Option String :=
      let ms := companyFindall text
      (ms.filter (fun c => !containsLit "HTBエナジー株式会社".data c.data)).head?
    let incl : Option String :=
      match amtSearch inclKws grpDigitsCommaDot joined with
      | some g => (app_to_decimal (some g)).map (fun v => groupComma (intTrunc v))
      | none => none
    let excl : Option String :=
      match amtSearch exclKws grpDigitsCommaDot joined with
      | some g => (app_to_decimal (some g)).map (fun v => groupComma (intTrunc v))
      | none => none
    { company := company, tool := none, department := none,
      amount_excl_tax := excl, amount_incl_tax := incl,
      due_date := dueScan lines }

end AppMain

/-! ## Spec-modelled text resolver (for claim C4)

The implemented `_entity_text` is compared against the resolution order the
spec prescribes. -/

/-- A character of the invoices' native script (hiragana, katakana, CJK
ideographs). -/
def isNativeChar (c : Char) : Bool :=
  (0x3040 ≤ c.toNat && c.toNat ≤ 0x30FF) ||
  (0x4E00 ≤ c.toNat && c.toNat ≤ 0x9FFF)

/-- Modelled from the spec (§4.2): the four-step `resolveText` order —
(1) the trimmed mention text when it has a native-script character, (2) the
trimmed anchor slice when that has one, (3) the first company-name-shaped
substring of the source text other than the operating entity, (4) the
trimmed mention text, or null when empty.  Comparison definition only; the
implementation under test is `MainPy._entity_text`. -/
def resolveTextSpec (doc : MainPy.Doc) : Option MainPy.Entity → Option String
  | none => none
  | some e =>
    if e.mention_text.data.any isNativeChar then some (pyStrip e.mention_text)
    else
      let step2 : Option String :=
        match e.text_anchor with
        | some (st, en) =>
          let sl := pySlice doc.text st en
          if sl.data.any isNativeChar then some (pyStrip sl) else none
        | none => none
      match step2 with
      | some s => some s
      | none =>
        match ((companyFindall doc.text).filter
            (fun c => c ≠ "HTBエナジー株式会社")).head? with
        | some c => some c
        | none =>
          if pyStrip e.mention_text = "" then none
          else some (pyStrip e.mention_text)

/-! ## Association-list (Python dict) lemmas -/

theorem find?_append_none {α : Type} (p : α → Bool) (d l : List α)
    (h : List.find? p d = none) : List.find? p (d ++ l) = List.find? p l := by
  induction d with
  | nil => rfl
  | cons a t ih =>
    simp only [List.find?] at h
    simp only [List.cons_append, List.find?]
    cases hfa : p a with
    | true => rw [hfa] at h; cases h
    | false => rw [hfa] at h; exact ih h

theorem find?_append_nomatch {α : Type} (p : α → Bool) (d : List α) (x : α)
    (hx : p x = false) : List.find? p (d ++ [x]) = List.find? p d := by
  induction d with
  | nil => simp [List.find?, hx]
  | cons a t ih =>
    simp only [List.cons_append, List.find?]
    cases hfa : p a with
    | true => rfl
    | false => exact ih

theorem find?_map_dset_self (d : Dict) (k : String) (v : JVal)
    (h : ∃ kv ∈ d, kv.1 = k) :
    List.find? (fun kv => kv.1 = k)
      (List.map (fun kv => if kv.1 = k then (k, v) else kv) d) = some (k, v) := by
  induction d with
  | nil => rcases h with ⟨kv, hmem, _⟩; cases hmem
  | cons a t ih =>
    by_cases ha : a.1 = k
    · simp [ha]
    · rcases h with ⟨kv, hmem, hk⟩
      rcases List.mem_cons.mp hmem with h1 | h2
      · exact absurd (h1 ▸ hk) ha
      · simp only [List.map_cons, if_neg ha, List.find?]
        rw [show (decide (a.1 = k)) = false from decide_eq_false ha]
        exact ih ⟨kv, h2, hk⟩

theorem find?_map_dset_ne (d : Dict) (k k' : String) (v : JVal) (hne : k' ≠ k) :
    List.find? (fun kv => kv.1 = k')
      (List.map (fun kv => if kv.1 = k then (k, v) else kv) d) =
    List.find? (fun kv => kv.1 = k') d := by
  induction d with
  | nil => rfl
  | cons a t ih =>
    by_cases ha : a.1 = k
    · have h1 : (decide ((k, v).1 = k')) = false :=
        decide_eq_false (fun hh => hne hh.symm)
      have h2 : (decide (a.1 = k')) = false :=
        decide_eq_false (fun hh => hne (ha.symm.trans hh).symm)
      simp only [List.map_cons, if_pos ha, List.find?, h1, h2]
      exact ih
    · simp only [List.map_cons, if_neg ha, List.find?]
      cases hfa : (decide (a.1 = k')) with
      | true => rfl
      | false => exact ih

theorem pyGet_dset_self (d : Dict) (k : String) (v : JVal) :
    pyGet (dset d k v) k = v := by
  unfold dset
  by_cases h : (List.find? (fun kv => kv.1 = k) d).isSome
  · rw [if_pos h]
    have hex : ∃ kv ∈ d, kv.1 = k := by
      rcases Option.isSome_iff_exists.mp h with ⟨kv, hkv⟩
      refine ⟨kv, List.mem_of_find?_eq_some hkv, ?_⟩
      have := List.find?_some hkv
      simpa using this
    simp [pyGet, dget, find?_map_dset_self d k v hex]
  · rw [if_neg h]
    have hnone : List.find? (fun kv => kv.1 = k) d = none :=
      Option.not_isSome_iff_eq_none.mp h
    simp only [pyGet, dget, find?_append_none _ d _ hnone, List.find?]
    simp

theorem pyGet_dset_ne (d : Dict) (k k' : String) (v : JVal) (hne : k' ≠ k) :
    pyGet (dset d k v) k' = pyGet d k' := by
  unfold dset
  by_cases h : (List.find? (fun kv => kv.1 = k) d).isSome
  · rw [if_pos h]
    simp only [pyGet, dget, find?_map_dset_ne d k k' v hne]
  · rw [if_neg h]
    have h1 : (fun kv : String × JVal => decide (kv.1 = k')) (k, v) = false :=
      decide_eq_false (fun hh => hne hh.symm)
    simp only [pyGet, dget]
    rw [find?_append_nomatch (fun kv : String × JVal => decide (kv.1 = k')) d (k, v) h1]

theorem pyGet_allnull (d : Dict) (k : String)
    (h : ∀ kv ∈ d, kv.2 = JVal.jnull) : pyGet d k = JVal.jnull := by
  induction d with
  | nil => rfl
  | cons a t ih =>
    simp only [pyGet, dget, List.find?]
    cases hfa : (decide (a.1 = k)) with
    | true => simpa using h a (List.mem_cons_self a t)
    | false => exact ih (fun kv hkv => h kv (List.mem_cons_of_mem a hkv))

theorem anyTruthy_allnull (d : Dict)
    (h : ∀ kv ∈ d, kv.2 = JVal.jnull) : anyTruthy d = false := by
  induction d with
  | nil => rfl
  | cons a t ih =>
    simp only [anyTruthy, List.any_cons, Bool.or_eq_false_iff]
    constructor
    · rw [h a (List.mem_cons_self a t)]; rfl
    · exact ih (fun kv hkv => h kv (List.mem_cons_of_mem a hkv))

theorem anyTruthy_ne_nil (d : Dict) (h : anyTruthy d = true) : d.isEmpty = false := by
  cases d with
  | nil => cases h
  | cons a t => rfl

/-- `Docai.finalize` reads its dictionary only through the four field
keys. -/
theorem finalize_congr (d1 d2 : Dict)
    (hv : pyGet d1 "vendor" = pyGet d2 "vendor")
    (hs : pyGet d1 "subtotal" = pyGet d2 "subtotal")
    (ht : pyGet d1 "total" = pyGet d2 "total")
    (hd : pyGet d1 "due_date" = pyGet d2 "due_date") :
    Docai.finalize d1 = Docai.finalize d2 := by
  unfold Docai.finalize
  rw [hv, hs, ht, hd]

/-! ## Claim C9 — vendor normalization idempotence -/

/-- C9 (counterexample): `normalize_vendor` is not idempotent.  On
`"株式 会社"` the first pass only removes the inner space, which *creates*
the token `株式会社`; the second pass then removes it, so applying the
function twice differs from applying it once. -/
theorem c9_normalize_not_idempotent :
    normalize_vendor (normalize_vendor "株式 会社") ≠ normalize_vendor "株式 会社" := by
  decide

theorem reSubLits_id (subs : List (List Char × List Char)) :
    ∀ (fuel : Nat) (cs : List Char),
      (∀ pr ∈ subs, containsLit pr.1 cs = false) → reSubLits subs fuel cs = cs := by
  intro fuel
  induction fuel with
  | zero => intro cs _; rfl
  | succ n ih =>
    intro cs h
    cases cs with
    | nil => rfl
    | cons c rest =>
      have hfs : firstSub subs (c :: rest) = none := by
        apply List.find?_eq_none.mpr
        intro pr hpr
        have := h pr hpr
        simp only [containsLit, Bool.or_eq_false_iff] at this
        simp [this.1]
      simp only [reSubLits, hfs]
      have hrest : ∀ pr ∈ subs, containsLit pr.1 rest = false := by
        intro pr hpr
        have := h pr hpr
        simp only [containsLit, Bool.or_eq_false_iff] at this
        exact this.2
      rw [ih rest hrest]

theorem dropWhile_of_none (p : Char → Bool) (cs : List Char)
    (h : ∀ c ∈ cs, p c = false) : cs.dropWhile p = cs := by
  cases cs with
  | nil => rfl
  | cons c rest => simp [List.dropWhile, h c (List.mem_cons_self c rest)]

theorem pyStripChars_of_nows (cs : List Char)
    (h : ∀ c ∈ cs, isPyWs c = false) : pyStripChars cs = cs := by
  unfold pyStripChars
  rw [dropWhile_of_none isPyWs cs h]
  rw [dropWhile_of_none isPyWs cs.reverse (fun c hc => h c (List.mem_reverse.mp hc))]
  exact List.reverse_reverse cs

theorem mem_dropWhile {α : Type} (p : α → Bool) (l : List α) (a : α)
    (h : a ∈ l.dropWhile p) : a ∈ l := by
  induction l with
  | nil => cases h
  | cons x t ih =>
    simp only [List.dropWhile] at h
    cases hpx : p x with
    | true => rw [hpx] at h; exact List.mem_cons_of_mem x (ih h)
    | false => rw [hpx] at h; exact h

theorem mem_pyStripChars (cs : List Char) (c : Char)
    (h : c ∈ pyStripChars cs) : c ∈ cs := by
  unfold pyStripChars at h
  have h1 := List.mem_reverse.mp h
  have h2 := mem_dropWhile isPyWs _ _ h1
  have h3 := List.mem_reverse.mp h2
  exact mem_dropWhile isPyWs _ _ h3

/-- Characters of a normalized vendor name are never whitespace. -/
theorem normalize_vendor_nows (x : String) :
    ∀ c ∈ (normalize_vendor x).data, isPyWs c = false := by
  intro c hc
  unfold normalize_vendor at hc
  by_cases hx : x = ""
  · rw [if_pos hx] at hc; cases hc
  · rw [if_neg hx] at hc
    simp only [pyStrip] at hc
    have h1 := mem_pyStripChars _ _ hc
    have h2 := List.mem_filter.mp h1
    simpa using h2.2

/-- C9 (amended): `normalize_vendor` is idempotent on every input whose
normalized form contains none of the three legal-entity tokens; in general
a second application can strip further, because removing whitespace or a
token can create a new token occurrence (see the counterexample). -/
theorem c9_idempotent_when_tokens_absent (x : String)
    (h : containsAnyKw ["株式会社", "（株）", "㈱"] (normalize_vendor x) = false) :
    normalize_vendor (normalize_vendor x) = normalize_vendor x := by
  set y := normalize_vendor x with hy
  by_cases hempty : y = ""
  · rw [hempty]; rfl
  · have hnotok : ∀ pr ∈ corpTokens3, containsLit pr.1 y.data = false := by
      simp only [containsAnyKw, List.any_cons, List.any_nil,
        Bool.or_eq_false_iff] at h
      intro pr hpr
      simp only [corpTokens3, List.mem_cons, List.mem_singleton] at hpr
      rcases hpr with h1 | h1 | h1 | h1
      · rw [h1]; exact h.1
      · rw [h1]; exact h.2.1
      · rw [h1]; exact h.2.2.1
      · cases h1
    have hnows : ∀ c ∈ y.data, isPyWs c = false := hy ▸ normalize_vendor_nows x
    have h1 : reSubRun corpTokens3 y.data = y.data := by
      unfold reSubRun
      exact reSubLits_id corpTokens3 y.data.length y.data hnotok
    have h2 : List.filter (fun c => !isPyWs c) y.data = y.data :=
      List.filter_eq_self.mpr (fun c hc => by simp [hnows c hc])
    calc normalize_vendor y
        = pyStrip ⟨List.filter (fun c => !isPyWs c) (reSubRun corpTokens3 y.data)⟩ := by
          rw [normalize_vendor, if_neg hempty]
      _ = pyStrip ⟨y.data⟩ := by rw [h1, h2]
      _ = y := by
          show (⟨pyStripChars y.data⟩ : String) = y
          rw [pyStripChars_of_nows y.data hnows]

/-- Witness for C9's amended theorem at a concrete input. -/
theorem c9_idempotent_when_tokens_absent_witness :
    containsAnyKw ["株式会社", "（株）", "㈱"] (normalize_vendor "株式会社テスト 商事") = false ∧
    normalize_vendor (normalize_vendor "株式会社テスト 商事") =
      normalize_vendor "株式会社テスト 商事" :=
  ⟨by decide, c9_idempotent_when_tokens_absent "株式会社テスト 商事" (by decide)⟩

/-! ## Claim C10 — normalization of fully-stripped names -/

/-- C10 (confirmed): when legal-entity-token and whitespace stripping
removes every character, `normalize_vendor_name` returns the original
input unchanged rather than the empty string; a `None` or empty input is
likewise returned unchanged. -/
theorem c10_normalize_preserves_when_emptied :
    normalize_vendor_name none = none ∧
    normalize_vendor_name (some "") = some "" ∧
    ∀ s : String, s ≠ "" → nvnCore s = "" →
      normalize_vendor_name (some s) = some s := by
  refine ⟨rfl, rfl, fun s h1 h2 => ?_⟩
  simp only [normalize_vendor_name, if_neg h1, h2]
  simp

/-- Witness for C10 at the bare legal-entity token. -/
theorem c10_normalize_preserves_when_emptied_witness :
    ("株式会社" : String) ≠ "" ∧ nvnCore "株式会社" = "" ∧
    normalize_vendor_name (some "株式会社") = some "株式会社" :=
  ⟨by decide, by decide,
    c10_normalize_preserves_when_emptied.2.2 "株式会社" (by decide) (by decide)⟩

/-! ## Claim C4 — entity-text resolution order -/

def c4doc : MainPy.Doc :=
  { text := "請求書 株式会社テスト 東京都", entities := [] }

def c4ent : MainPy.Entity :=
  { type_ := "supplier_name", mention_text := "ABC Corp", text_anchor := none }

/-- C4 (counterexample): the implemented resolver returns the mention text
whenever it is non-empty, with no native-script check and no company-shape
fallback; the spec's resolution order would instead return the native-form
company name from the source text. -/
theorem c4_entity_text_ignores_script :
    MainPy._entity_text c4doc (some c4ent) = some "ABC Corp" ∧
    resolveTextSpec c4doc (some c4ent) = some "株式会社テスト" ∧
    ("ABC Corp" : String) ≠ "株式会社テスト" := by
  refine ⟨rfl, by decide, by decide⟩

/-- C4 (amended): `_entity_text` resolves in this order — (1) the trimmed
mention text whenever it is non-empty, regardless of script; (2) else the
trimmed anchor slice `doc.text[start:end]` whenever an anchor is present
and the document text is non-empty, again without any script check; (3)
else `None`.  No company-name-shape scan is performed. -/
theorem c4_entity_text_resolution_order :
    (∀ (doc : MainPy.Doc) (e : MainPy.Entity), e.mention_text ≠ "" →
       MainPy._entity_text doc (some e) = some (pyStrip e.mention_text)) ∧
    (∀ (doc : MainPy.Doc) (e : MainPy.Entity) (st en : Nat),
       e.mention_text = "" → e.text_anchor = some (st, en) → doc.text ≠ "" →
       MainPy._entity_text doc (some e) = some (pyStrip (pySlice doc.text st en))) ∧
    (∀ (doc : MainPy.Doc) (e : MainPy.Entity) (st en : Nat),
       e.mention_text = "" → e.text_anchor = some (st, en) → doc.text = "" →
       MainPy._entity_text doc (some e) = none) ∧
    (∀ (doc : MainPy.Doc) (e : MainPy.Entity),
       e.mention_text = "" → e.text_anchor = none →
       MainPy._entity_text doc (some e) = none) ∧
    (∀ doc : MainPy.Doc, MainPy._entity_text doc none = none) := by
  refine ⟨?_, ?_, ?_, ?_, fun _ => rfl⟩
  · intro doc e h
    simp [MainPy._entity_text, h]
  · intro doc e st en h1 h2 h3
    simp [MainPy._entity_text, h1, h2, h3]
  · intro doc e st en h1 h2 h3
    simp [MainPy._entity_text, h1, h2, h3]
  · intro doc e h1 h2
    simp [MainPy._entity_text, h1, h2]

def c4wEnt : MainPy.Entity :=
  { type_ := "supplier_name", mention_text := "",
    text_anchor := some (4, 11) }

/-- Witness for C4's amended theorem: a western-script mention is returned
as-is, and an empty mention falls back to the anchor slice. -/
theorem c4_entity_text_resolution_order_witness :
    MainPy._entity_text c4doc (some c4ent) = some (pyStrip "ABC Corp") ∧
    MainPy._entity_text c4doc (some c4wEnt) =
      some (pyStrip (pySlice c4doc.text 4 11)) :=
  ⟨c4_entity_text_resolution_order.1 c4doc c4ent (by decide),
   c4_entity_text_resolution_order.2.1 c4doc c4wEnt 4 11 rfl rfl (by decide)⟩

/-! ## Claim C1 — record shape across success and exception -/

/-- C1 (counterexample): on an upstream exception, `process_pdf` of
src/main.py returns a record containing only `_source` — none of the seven
fixed field keys (here checked for `company`) is present, contradicting the
claimed all-keys-with-null shape of the exception record. -/
theorem c1_error_record_missing_fields :
    dget (MainPy.process_pdf "bucket" "file.pdf" "proc" "us"
      (Except.error "boom")) "company" = none ∧
    (MainPy.process_pdf "bucket" "file.pdf" "proc" "us"
      (Except.error "boom")).map Prod.fst = ["_source"] :=
  ⟨rfl, rfl⟩

/-- C1 (amended): on success the record of src/main.py's `process_pdf`
carries exactly the seven fixed field keys plus `_source` with status
`success`; on an upstream exception it carries only `_source`, with status
`error` and the causing message — the seven field keys are absent.  The
docai_processor variant's exception record instead carries its four field
keys (`vendor`, `subtotal`, `total`, `due_date`), all null, plus the error
`_source`. -/
theorem c1_record_shape_by_branch :
    (∀ (b n p l : String) (doc : MainPy.Doc),
       (MainPy.process_pdf b n p l (Except.ok doc)).map Prod.fst =
         ["company", "tool", "department", "amount_excl_tax",
          "amount_incl_tax", "tax_amount", "due_date", "_source"]) ∧
    (∀ b n p l msg : String,
       MainPy.process_pdf b n p l (Except.error msg) =
         [("_source", JVal.jobj [("bucket", JVal.jstr b), ("name", JVal.jstr n),
            ("processor_id", JVal.jstr p), ("location", JVal.jstr l),
            ("status", JVal.jstr "error"), ("error_message", JVal.jstr msg)])]) ∧
    (∀ (b n p l msg : String) (resp : Except String String),
       Docai.process_pdf b n p l (Except.error msg) resp =
         [("vendor", JVal.jnull), ("subtotal", JVal.jnull),
          ("total", JVal.jnull), ("due_date", JVal.jnull),
          ("_source", JVal.jobj [("bucket", JVal.jstr b), ("name", JVal.jstr n),
             ("status", JVal.jstr "error"), ("error_message", JVal.jstr msg)])]) :=
  ⟨fun _ _ _ _ _ => rfl, fun _ _ _ _ _ => rfl, fun _ _ _ _ _ _ => rfl⟩

/-! ## Claim C8 — display formatting inside the extractor -/

def c8text : String := "ご請求書
株式会社サンプル 御中
小計　¥68,560
合計　¥75,416
"

/-- C8 (counterexample): the extraction function itself emits the
thousands-grouped display string — `extract_from_text` returns `"75,416"`
and `"68,560"` (strings containing the grouping comma) for the amount
fields, so conversion to display form happens inside extraction, not only
at the serialization boundary. -/
theorem c8_display_format_inside_extractor :
    (AppMain.extract_from_text c8text).amount_incl_tax = some "75,416" ∧
    (AppMain.extract_from_text c8text).amount_excl_tax = some "68,560" ∧
    ("75,416" : String).data.contains ',' = true :=
  ⟨by decide, by decide, by decide⟩

/-- C8 (amended): amounts are parsed exactly, but src/app/main.py's
extractor converts them to thousands-grouped display strings inside
`extract_from_text` itself (every amount it reports is `groupComma` of a
truncated integer), and src/main.py's `extract_fields` converts amounts to
binary64 floats internally; display/float conversion is not confined to
the serialization boundary. -/
theorem c8_amounts_are_grouped_strings (text v : String) :
    ((AppMain.extract_from_text text).amount_incl_tax = some v →
      ∃ n : ℤ, v = groupComma n) ∧
    ((AppMain.extract_from_text text).amount_excl_tax = some v →
      ∃ n : ℤ, v = groupComma n) := by
  by_cases htext : text = ""
  · subst htext
    constructor <;> intro h <;>
      simp [AppMain.extract_from_text, AppMain.initFields] at h
  · constructor
    · intro h
      simp only [AppMain.extract_from_text, if_neg htext] at h
      rcases hs : amtSearch AppMain.inclKws grpDigitsCommaDot
          (joinSpace (procLines text)) with _ | g
      · rw [hs] at h; simp at h
      · rw [hs] at h
        have h2 : (app_to_decimal (some g)).map
            (fun q => groupComma (intTrunc q)) = some v := h
        rcases hd : app_to_decimal (some g) with _ | q
        · rw [hd] at h2; cases h2
        · rw [hd] at h2
          exact ⟨intTrunc q, (Option.some.inj h2).symm⟩
    · intro h
      simp only [AppMain.extract_from_text, if_neg htext] at h
      rcases hs : amtSearch AppMain.exclKws grpDigitsCommaDot
          (joinSpace (procLines text)) with _ | g
      · rw [hs] at h; simp at h
      · rw [hs] at h
        have h2 : (app_to_decimal (some g)).map
            (fun q => groupComma (intTrunc q)) = some v := h
        rcases hd : app_to_decimal (some g) with _ | q
        · rw [hd] at h2; cases h2
        · rw [hd] at h2
          exact ⟨intTrunc q, (Option.some.inj h2).symm⟩

/-- Witness for C8's amended theorem at the concrete invoice text. -/
theorem c8_amounts_are_grouped_strings_witness :
    ∃ n : ℤ, ("75,416" : String) = groupComma n :=
  (c8_amounts_are_grouped_strings c8text "75,416").1 rfl

/-! ## Claim C2 — merge precedence across tiers -/

def c2text : String :=
  "請求書 株式会社テスト 御中 お支払期日 2025年9月30日 ご請求金額 ¥75,416 小計 ¥68,560 以上よろしくお願いします"

def c2raw : String :=
  "\x7b\"vendor\": \"株式会社ダミー\", \"subtotal\": null, \"total\": null, \"due_date\": null\x7d"

/-- C2 (counterexample): with a language-model response whose decoded
object has only `vendor` truthy, the merged record's `due_date` stays null
even though the lower-precedence regex tier would extract `2025-09-30`
from the text — so the merge does not keep the first non-null value per
field across tiers. -/
theorem c2_merge_not_first_nonnull :
    (Docai.extract_with_gemini c2text (Except.ok c2raw)).due_date = JVal.jnull ∧
    pyGet (Docai.geminiDecode c2raw) "due_date" = JVal.jnull ∧
    (Docai.regexTierResult c2text).due_date = JVal.jstr "2025-09-30" ∧
    JVal.jstr "2025-09-30" ≠ JVal.jnull :=
  ⟨rfl, rfl, rfl, fun h => JVal.noConfusion h⟩

/-- C2 (amended): the non-overwriting half of the merge rule holds, but in
an all-or-nothing form: the regex fallback runs only when the decoded
language-model object has no truthy value at all.  Whenever some field is
truthy, the merged record equals the normalized language-model object
alone — a lower tier never overwrites it, and fields the model left null
stay null even when the regex tier could have filled them, so per-field
first-non-null merging does not hold. -/
theorem c2_gemini_truthy_ignores_regex_tier (text raw : String)
    (hlen : 40 ≤ text.length)
    (htr : anyTruthy (Docai.geminiDecode raw) = true) :
    Docai.extract_with_gemini text (Except.ok raw) =
      Docai.runExtract (Docai.finalize (Docai.geminiDecode raw)) := by
  have hlt : ¬(text.length < 40) := not_lt.mpr hlen
  have hne : (Docai.geminiDecode raw).isEmpty = false := anyTruthy_ne_nil _ htr
  simp [Docai.extract_with_gemini, if_neg hlt, hne, htr]

/-- Witness for C2's amended theorem on the concrete response and text. -/
theorem c2_gemini_truthy_ignores_regex_tier_witness :
    Docai.extract_with_gemini c2text (Except.ok c2raw) =
      Docai.runExtract (Docai.finalize (Docai.geminiDecode c2raw)) :=
  c2_gemini_truthy_ignores_regex_tier c2text c2raw (by decide) (by decide)

/-! ## Claim C7 — tax amount as difference of resolved amounts -/

def c7doc : MainPy.Doc :=
  { text := "",
    entities :=
      [{ type_ := "subtotal", mention_text := "0.1", text_anchor := none },
       { type_ := "total_amount", mention_text := "0.3", text_anchor := none }] }

/-- C7 (counterexample): with resolved subtotal `0.1` and total `0.3` the
code stores `float(total - subtotal)`; the binary64 rounding makes the
stored `tax_amount` differ from the exact difference `1/5`, so the output
does not equal total minus subtotal exactly. -/
theorem c7_tax_not_exact_difference :
    MainPy.subtotalOf c7doc = some (mkRat 1 10) ∧
    MainPy.totalOf c7doc = some (mkRat 3 10) ∧
    dget (MainPy.extract_fields c7doc) "tax_amount" =
      some (JVal.jnum (mkRat 3602879701896397 18014398509481984)) ∧
    mkRat 3602879701896397 18014398509481984 ≠ mkRat 3 10 - mkRat 1 10 :=
  ⟨rfl, rfl, rfl, by rw [← qSub_eq]; decide⟩

/-- C7 (amended): whenever both the subtotal and the total entity amounts
are resolved, `tax_amount` is the binary64 rounding (`float()`) of the
exact difference `total - subtotal` — exact whenever that difference is
representable in binary64, for example for integral yen amounts, but not
in general; whenever at least one is missing, `tax_amount` is taken from
the dedicated tax-entity extraction (also float-converted), or is null if
that too fails. -/
theorem c7_tax_amount_branches (doc : MainPy.Doc) :
    (∀ a b : ℚ, MainPy.subtotalOf doc = some a → MainPy.totalOf doc = some b →
       dget (MainPy.extract_fields doc) "tax_amount" =
         some (JVal.jnum (roundF64 (b - a)))) ∧
    ((MainPy.subtotalOf doc = none ∨ MainPy.totalOf doc = none) →
       dget (MainPy.extract_fields doc) "tax_amount" =
         some (optNum ((MainPy.taxEntityOf doc).map roundF64))) := by
  constructor
  · intro a b ha hb
    rw [← qSub_eq b a]
    simp only [MainPy.extract_fields, ha, hb]
    rfl
  · intro h
    rcases hsub : MainPy.subtotalOf doc with _ | s
    · simp only [MainPy.extract_fields, hsub]
      rfl
    · rcases htot : MainPy.totalOf doc with _ | t
      · simp only [MainPy.extract_fields, hsub, htot]
        rfl
      · rcases h with h | h
        · exact absurd hsub (h ▸ fun hh => Option.noConfusion hh)
        · exact absurd htot (h ▸ fun hh => Option.noConfusion hh)

/-- Witness for C7's amended theorem at the concrete document. -/
theorem c7_tax_amount_branches_witness :
    dget (MainPy.extract_fields c7doc) "tax_amount" =
      some (JVal.jnum (roundF64 (mkRat 3 10 - mkRat 1 10))) :=
  (c7_tax_amount_branches c7doc).1 (mkRat 1 10) (mkRat 3 10) rfl rfl

/-! ## Claim C3 — the amount parser -/

theorem takeWhile_filter_comm (p q : Char → Bool)
    (hpq : ∀ a, q a = false → p a = true) (l : List Char) :
    (l.filter q).takeWhile p = (l.takeWhile p).filter q := by
  induction l with
  | nil => rfl
  | cons a t ih =>
    cases hq : q a with
    | true =>
      rw [List.filter_cons_of_pos hq]
      cases hp : p a with
      | true =>
        rw [List.takeWhile_cons_of_pos hp, List.takeWhile_cons_of_pos hp,
          List.filter_cons_of_pos hq, ih]
      | false =>
        rw [List.takeWhile_cons_of_neg (by simp [hp]),
          List.takeWhile_cons_of_neg (by simp [hp])]
        rfl
    | false =>
      have hp : p a = true := hpq a hq
      rw [List.filter_cons_of_neg (by simp [hq]), List.takeWhile_cons_of_pos hp,
        List.filter_cons_of_neg (by simp [hq]), ih]

theorem dropWhile_filter_comm (p q : Char → Bool)
    (hpq : ∀ a, q a = false → p a = true) (l : List Char) :
    (l.filter q).dropWhile p = (l.dropWhile p).filter q := by
  induction l with
  | nil => rfl
  | cons a t ih =>
    cases hq : q a with
    | true =>
      rw [List.filter_cons_of_pos hq]
      cases hp : p a with
      | true =>
        rw [List.dropWhile_cons_of_pos hp, List.dropWhile_cons_of_pos hp, ih]
      | false =>
        rw [List.dropWhile_cons_of_neg (by simp [hp]),
          List.dropWhile_cons_of_neg (by simp [hp]), List.filter_cons_of_pos hq]
    | false =>
      have hp : p a = true := hpq a hq
      rw [List.filter_cons_of_neg (by simp [hq]), List.dropWhile_cons_of_pos hp, ih]

theorem length_filter_filter_le (p q : Char → Bool) (l : List Char) :
    ((l.filter p).filter q).length ≤ (l.filter q).length := by
  induction l with
  | nil => exact Nat.le_refl 0
  | cons a t ih =>
    cases hp : p a with
    | true =>
      rw [List.filter_cons_of_pos hp]
      cases hq : q a with
      | true =>
        rw [List.filter_cons_of_pos hq, List.filter_cons_of_pos hq]
        exact Nat.succ_le_succ ih
      | false =>
        rw [List.filter_cons_of_neg (by simp [hq]),
          List.filter_cons_of_neg (by simp [hq])]
        exact ih
    | false =>
      rw [List.filter_cons_of_neg (by simp [hp])]
      cases hq : q a with
      | true =>
        rw [List.filter_cons_of_pos hq, List.length_cons]
        exact Nat.le_succ_of_le ih
      | false =>
        rw [List.filter_cons_of_neg (by simp [hq])]
        exact ih

theorem mem_takeWhile_pred (p : Char → Bool) (l : List Char) (x : Char)
    (h : x ∈ l.takeWhile p) : p x = true := by
  induction l with
  | nil => cases h
  | cons a t ih =>
    cases hpa : p a with
    | true =>
      rw [List.takeWhile_cons_of_pos hpa] at h
      rcases List.mem_cons.mp h with h1 | h2
      · rw [h1]; exact hpa
      · exact ih h2
    | false =>
      rw [List.takeWhile_cons_of_neg (by simp [hpa])] at h
      cases h

theorem dropWhile_head_false (p : Char → Bool) (l : List Char) (c : Char)
    (rest : List Char) (h : l.dropWhile p = c :: rest) : p c = false := by
  induction l with
  | nil => cases h
  | cons a t ih =>
    cases hpa : p a with
    | true => rw [List.dropWhile_cons_of_pos hpa] at h; exact ih h
    | false =>
      rw [List.dropWhile_cons_of_neg (by simp [hpa])] at h
      cases h
      exact hpa

theorem dotSplitAux_spec (cs : List Char) :
    ∀ acc : List Char,
      (cs.filter (fun c => c = '.')).length ≤ 1 →
      dotSplitAux acc cs =
        some (acc.reverse ++ cs.takeWhile (fun c => c ≠ '.'),
              (cs.dropWhile (fun c => c ≠ '.')).drop 1) := by
  induction cs with
  | nil => intro acc _; simp [dotSplitAux]
  | cons c rest ih =>
    intro acc h
    by_cases hc : c = '.'
    · subst hc
      rw [List.filter_cons_of_pos (by simp)] at h
      have hdotsrest : (rest.filter (fun c => c = '.')).length = 0 := by
        simp only [List.length_cons] at h
        omega
      have hanyrest : rest.any (fun c => c = '.') = false := by
        rw [List.any_eq_false]
        intro x hx hpx
        have hmem : x ∈ rest.filter (fun c => c = '.') :=
          List.mem_filter.mpr ⟨hx, hpx⟩
        rw [List.length_eq_zero.mp hdotsrest] at hmem
        cases hmem
      simp only [dotSplitAux, if_pos rfl, hanyrest]
      rw [List.takeWhile_cons_of_neg (by simp), List.dropWhile_cons_of_neg (by simp)]
      simp
    · have h' : (rest.filter (fun c => c = '.')).length ≤ 1 := by
        rwa [List.filter_cons_of_neg (by simp [hc])] at h
      simp only [dotSplitAux, if_neg hc]
      rw [ih (c :: acc) h']
      rw [List.takeWhile_cons_of_pos (by simp [hc]),
        List.dropWhile_cons_of_pos (by simp [hc])]
      simp

theorem parseDecLit_all_dots (l : List Char) (h : ∀ a ∈ l, a = '.') :
    parseDecLit l = none := by
  cases l with
  | nil => rfl
  | cons c rest =>
    have hc : c = '.' := h c (List.mem_cons_self _ _)
    subst hc
    cases rest with
    | nil => rfl
    | cons c2 r2 =>
      have hc2 : c2 = '.' := h c2 (List.mem_cons_of_mem _ (List.mem_cons_self _ _))
      subst hc2
      simp [parseDecLit, dotSplitAux]

/-- The central parsing fact: on a well-formed decimal-like string the
comma-stripped `Decimal` parse yields exactly the spec's mathematical
value. -/
theorem parseDecLit_wellformed (s : String) (hwf : wellFormedDec s = true) :
    parseDecLit (s.data.filter (fun c => c ≠ ',')) = some (specDecimalValue s) := by
  have hwf' := hwf
  simp only [wellFormedDec, Bool.and_eq_true] at hwf'
  obtain ⟨⟨hallb, hdotb⟩, hdigb⟩ := hwf'
  have hall : ∀ c ∈ s.data, (isDigitChar c || c = ',' || c = '.') = true :=
    List.all_eq_true.mp hallb
  have hdot : (s.data.filter (fun c => c = '.')).length ≤ 1 := by
    exact of_decide_eq_true hdotb
  set t := s.data with ht
  set dc := t.filter (fun c => c ≠ ',') with hdc
  have hmem_dc : ∀ c ∈ dc, isDigitChar c = true ∨ c = '.' := by
    intro c hcmem
    have h1 := List.mem_filter.mp hcmem
    have h2 := hall c h1.1
    have h3 : ¬(c = ',') := by simpa using h1.2
    simp only [Bool.or_eq_true, decide_eq_true_eq] at h2
    rcases h2 with (hd | hcomma) | hdotc
    · exact Or.inl hd
    · exact absurd hcomma h3
    · exact Or.inr hdotc
  have hnotdash : ∀ c ∈ dc, ¬(c = '-') := by
    intro c hcmem hdash
    rcases hmem_dc c hcmem with hd | hdotc
    · rw [hdash] at hd; exact absurd hd (by decide)
    · rw [hdash] at hdotc; exact absurd hdotc (by decide)
  have hneg : (decide (dc.headD ' ' = '-')) = false := by
    cases hdcc : dc with
    | nil => decide
    | cons c r =>
      simp only [List.headD_cons]
      exact decide_eq_false (hnotdash c (by rw [hdcc]; exact List.mem_cons_self _ _))
  have hdots_dc : (dc.filter (fun c => c = '.')).length ≤ 1 :=
    le_trans (length_filter_filter_le _ _ t) hdot
  -- the two halves of the comma-stripped string
  have hpq : ∀ a : Char, (decide (a ≠ ',')) = false → (decide (a ≠ '.')) = true := by
    intro a ha
    have : a = ',' := by simpa using ha
    rw [this]; decide
  have hip : dc.takeWhile (fun c => c ≠ '.') =
      (t.takeWhile (fun c => c ≠ '.')).filter isDigitChar := by
    rw [hdc, takeWhile_filter_comm _ _ hpq t]
    apply List.filter_congr
    intro x hx
    have hxt : x ∈ t := List.takeWhile_subset _ hx
    have hxp : (decide (x ≠ '.')) = true := mem_takeWhile_pred _ _ _ hx
    have hxdot : ¬(x = '.') := by simpa using hxp
    have h2 := hall x hxt
    simp only [Bool.or_eq_true, decide_eq_true_eq] at h2
    rcases h2 with (hd | hcomma) | hdotc
    · rw [hd]
      have : ¬(x = ',') := fun hh => by rw [hh] at hd; exact absurd hd (by decide)
      simp [this]
    · rw [hcomma]; decide
    · exact absurd hdotc hxdot
  have hdw : dc.dropWhile (fun c => c ≠ '.') =
      (t.dropWhile (fun c => c ≠ '.')).filter (fun c => c ≠ ',') := by
    rw [hdc, dropWhile_filter_comm _ _ hpq t]
  have hfp : (dc.dropWhile (fun c => c ≠ '.')).drop 1 =
      ((t.dropWhile (fun c => c ≠ '.')).drop 1).filter isDigitChar := by
    rw [hdw]
    cases hdwt : t.dropWhile (fun c => c ≠ '.') with
    | nil => simp
    | cons c rest =>
      have hpc : (decide (c ≠ '.')) = false := dropWhile_head_false _ t c rest hdwt
      have hcdot : c = '.' := by simpa using hpc
      subst hcdot
      rw [List.filter_cons_of_pos (by decide)]
      simp only [List.drop_one, List.tail_cons]
      -- rest has no dots
      have hsplit := List.takeWhile_append_dropWhile (fun c => decide (c ≠ '.')) (l := t)
      have hdots_take : ((t.takeWhile (fun c => c ≠ '.')).filter (fun c => c = '.')).length = 0 := by
        rw [List.length_eq_zero, List.filter_eq_nil_iff]
        intro x hx
        have := mem_takeWhile_pred _ _ _ hx
        simpa using this
      have hdots_split : (t.filter (fun c => c = '.')).length =
          ((t.takeWhile (fun c => c ≠ '.')).filter (fun c => c = '.')).length +
          ((t.dropWhile (fun c => c ≠ '.')).filter (fun c => c = '.')).length := by
        conv_lhs => rw [← hsplit]
        rw [List.filter_append, List.length_append]
      have hdots_rest : (rest.filter (fun c => c = '.')).length = 0 := by
        rw [hdwt] at hdots_split
        rw [List.filter_cons_of_pos (by decide)] at hdots_split
        simp only [hdots_take, List.length_cons, Nat.zero_add] at hdots_split
        omega
      have hrest_nodot : ∀ x ∈ rest, ¬(x = '.') := by
        rw [List.length_eq_zero, List.filter_eq_nil_iff] at hdots_rest
        intro x hx hxdot
        exact hdots_rest x hx (by simpa using hxdot)
      apply List.filter_congr
      intro x hx
      have hxt : x ∈ t := by
        have : x ∈ t.dropWhile (fun c => c ≠ '.') := by
          rw [hdwt]; exact List.mem_cons_of_mem _ hx
        exact List.dropWhile_subset _ this
      have h2 := hall x hxt
      simp only [Bool.or_eq_true, decide_eq_true_eq] at h2
      rcases h2 with (hd | hcomma) | hdotc
      · rw [hd]
        have : ¬(x = ',') := fun hh => by rw [hh] at hd; exact absurd hd (by decide)
        simp [this]
      · rw [hcomma]; decide
      · exact absurd hdotc (hrest_nodot x hx)
  -- nonemptiness: some digit survives
  obtain ⟨xd, hxd_mem, hxd_dig⟩ := List.any_eq_true.mp hdigb
  have hxd_dc : xd ∈ dc := by
    apply List.mem_filter.mpr
    refine ⟨hxd_mem, ?_⟩
    have : ¬(xd = ',') := fun hh => by
      rw [hh] at hxd_dig; exact absurd hxd_dig (by decide)
    simpa using this
  have hnonempty :
      ((dc.takeWhile (fun c => c ≠ '.')).isEmpty &&
        ((dc.dropWhile (fun c => c ≠ '.')).drop 1).isEmpty) = false := by
    by_contra hcon
    have hcon' := Bool.and_eq_true _ _ |>.mp (Bool.of_not_eq_false hcon)
    have hip_nil : dc.takeWhile (fun c => c ≠ '.') = [] :=
      List.isEmpty_iff.mp hcon'.1
    have hfp_nil : (dc.dropWhile (fun c => c ≠ '.')).drop 1 = [] :=
      List.isEmpty_iff.mp hcon'.2
    have hsplit := List.takeWhile_append_dropWhile (fun c => decide (c ≠ '.')) (l := dc)
    rw [hip_nil, List.nil_append] at hsplit
    cases hdwc : dc.dropWhile (fun c => c ≠ '.') with
    | nil =>
      rw [hdwc] at hsplit
      rw [← hsplit] at hxd_dc
      cases hxd_dc
    | cons c restc =>
      rw [hdwc] at hfp_nil
      simp only [List.drop_one, List.tail_cons] at hfp_nil
      have hpc : (decide (c ≠ '.')) = false := dropWhile_head_false _ dc c restc hdwc
      have hcdot : c = '.' := by simpa using hpc
      rw [hdwc, hfp_nil] at hsplit
      rw [← hsplit] at hxd_dc
      rcases List.mem_singleton.mp hxd_dc with hh
      rw [hh, hcdot] at hxd_dig
      exact absurd hxd_dig (by decide)
  -- assemble
  have hall_ip : (dc.takeWhile (fun c => c ≠ '.')).all isDigitChar = true := by
    rw [hip, List.all_eq_true]
    intro x hx
    exact (List.mem_filter.mp hx).2
  have hall_fp : ((dc.dropWhile (fun c => c ≠ '.')).drop 1).all isDigitChar = true := by
    rw [hfp, List.all_eq_true]
    intro x hx
    exact (List.mem_filter.mp hx).2
  simp only [parseDecLit, hneg, Bool.false_eq_true, if_false,
    dotSplitAux_spec dc [] hdots_dc, List.reverse_nil, List.nil_append]
  simp only [hall_ip, hall_fp, hnonempty, Bool.not_false, Bool.and_true, Bool.true_and,
    if_true]
  rw [hip, hfp]
  rfl

/-- `app_to_decimal` and `docai_to_decimal` are the same function: the two
comma branches of the app variant both remove commas, and when no comma is
present the removal is the identity. -/
theorem app_to_decimal_eq_docai (x : Option String) :
    app_to_decimal x = docai_to_decimal x := by
  cases x with
  | none => rfl
  | some str =>
    simp only [app_to_decimal, docai_to_decimal]
    by_cases hempty :
        (str.data.filter (fun c => isDigitChar c || c = ',' || c = '.')).isEmpty
    · rw [if_pos hempty, if_pos hempty]
    · rw [if_neg hempty, if_neg hempty]
      by_cases hcomma :
          (str.data.filter (fun c => isDigitChar c || c = ',' || c = '.')).any
            (fun c => c = ',') = true
      · by_cases hdot :
            (str.data.filter (fun c => isDigitChar c || c = ',' || c = '.')).any
              (fun c => c = '.') = true
        · rw [if_pos (by rw [hcomma, hdot]; rfl)]
        · rw [if_neg (by rw [hcomma]; simpa using hdot), if_pos hcomma]
      · rw [if_neg (by simp [hcomma]), if_neg (by simpa using hcomma)]
        have hid : (str.data.filter (fun c => isDigitChar c || c = ',' || c = '.')).filter
            (fun c => c ≠ ',') =
            str.data.filter (fun c => isDigitChar c || c = ',' || c = '.') := by
          rw [List.filter_eq_self]
          intro a ha
          have : ¬(a = ',') := by
            intro hh
            apply hcomma
            rw [List.any_eq_true]
            exact ⟨a, ha, by rw [hh]; decide⟩
          simpa using this
        rw [hid]

/-- C3 (confirmed): the amount parsers of src/app/main.py and
src/modules/docai_processor.py strip every character that is not a digit,
comma or period, drop the commas, and return the exact mathematical value
of every well-formed decimal-like string (arbitrary thousands-separator
placement); an input with no digit at all yields `None`, as does a `None`
input.  Both functions are total — no exception can escape. -/
theorem c3_to_decimal_exact_or_none :
    (∀ s : String, wellFormedDec s = true →
       docai_to_decimal (some s) = some (specDecimalValue s) ∧
       app_to_decimal (some s) = some (specDecimalValue s)) ∧
    (∀ s : String, s.data.any isDigitChar = false →
       docai_to_decimal (some s) = none ∧ app_to_decimal (some s) = none) ∧
    docai_to_decimal none = none ∧ app_to_decimal none = none := by
  refine ⟨fun s hwf => ?_, fun s hnodig => ?_, rfl, rfl⟩
  · have hdocai : docai_to_decimal (some s) = some (specDecimalValue s) := by
      simp only [docai_to_decimal]
      have hself : s.data.filter (fun c => isDigitChar c || c = ',' || c = '.') = s.data := by
        rw [List.filter_eq_self]
        intro a ha
        simp only [wellFormedDec, Bool.and_eq_true] at hwf
        exact List.all_eq_true.mp hwf.1.1 a ha
      rw [hself]
      have hne : s.data.isEmpty = false := by
        simp only [wellFormedDec, Bool.and_eq_true] at hwf
        obtain ⟨xd, hxd, _⟩ := List.any_eq_true.mp hwf.2
        cases hd : s.data with
        | nil => rw [hd] at hxd; cases hxd
        | cons a t => rfl
      rw [if_neg (by simp [hne])]
      exact parseDecLit_wellformed s hwf
    exact ⟨hdocai, (app_to_decimal_eq_docai (some s)).trans hdocai⟩
  · have hnod : ∀ a ∈ s.data, isDigitChar a = false := by
      rw [List.any_eq_false] at hnodig
      intro a ha
      exact Bool.eq_false_iff.mpr (hnodig a ha)
    have hdocai : docai_to_decimal (some s) = none := by
      simp only [docai_to_decimal]
      by_cases hempty :
          (s.data.filter (fun c => isDigitChar c || c = ',' || c = '.')).isEmpty
      · rw [if_pos hempty]
      · rw [if_neg hempty]
        apply parseDecLit_all_dots
        intro a ha
        have h1 := List.mem_filter.mp ha
        have h2 := List.mem_filter.mp h1.1
        have h3 := hnod a h2.1
        have h4 := h2.2
        simp only [h3, Bool.false_or, Bool.or_eq_true, decide_eq_true_eq] at h4
        rcases h4 with hcomma | hdotc
        · exact absurd hcomma (by simpa using h1.2)
        · exact hdotc
    exact ⟨hdocai, (app_to_decimal_eq_docai (some s)).trans hdocai⟩

/-- Witness for C3 on a concrete separator-ridden amount and a concrete
non-numeric string. -/
theorem c3_to_decimal_exact_or_none_witness :
    wellFormedDec "1,23,4.56" = true ∧
    docai_to_decimal (some "1,23,4.56") = some (specDecimalValue "1,23,4.56") ∧
    app_to_decimal (some "1,23,4.56") = some (specDecimalValue "1,23,4.56") ∧
    docai_to_decimal (some "総額:円") = none ∧
    specDecimalValue "1,23,4.56" = mkRat 123456 100 :=
  ⟨by decide, (c3_to_decimal_exact_or_none.1 "1,23,4.56" (by decide)).1,
   (c3_to_decimal_exact_or_none.1 "1,23,4.56" (by decide)).2,
   (c3_to_decimal_exact_or_none.2.1 "総額:円" (by decide)).1, by decide⟩

/-! ## Claim C5 — defensive language-model output parsing -/

theorem pyGet_applyUpdates (us : List (String × JVal)) :
    ∀ (d0 d0' : Dict), (∀ k, pyGet d0 k = pyGet d0' k) →
      ∀ k, pyGet (Docai.applyUpdates d0 us) k = pyGet (Docai.applyUpdates d0' us) k := by
  induction us with
  | nil => intro d0 d0' h k; exact h k
  | cons kv rest ih =>
    intro d0 d0' h k
    simp only [Docai.applyUpdates, List.foldl_cons]
    apply ih (dset d0 kv.1 kv.2) (dset d0' kv.1 kv.2)
    intro k'
    by_cases hk : k' = kv.1
    · rw [hk, pyGet_dset_self, pyGet_dset_self]
    · rw [pyGet_dset_ne _ _ _ _ hk, pyGet_dset_ne _ _ _ _ hk]
      exact h k'

/-- The fallback-then-normalize result does not depend on an initial
`ai_fields` whose values are all `null`. -/
theorem fallback_insensitive (text : String) (d0 : Dict)
    (h : ∀ kv ∈ d0, kv.2 = JVal.jnull) :
    (Docai.fallbackUpdate text d0).bind Docai.finalize =
      (Docai.fallbackUpdate text []).bind Docai.finalize := by
  have hd0 : ∀ k, pyGet d0 k = pyGet ([] : Dict) k := by
    intro k
    rw [pyGet_allnull d0 k h]
    rfl
  unfold Docai.fallbackUpdate
  cases hu : Docai.fallbackUpdates text with
  | error e => rfl
  | ok us =>
    simp only [Except.map, Except.bind]
    apply finalize_congr <;> exact pyGet_applyUpdates us d0 [] hd0 _

/-- C5 (confirmed): the language-model adapter never raises; it takes the
first brace-delimited span of the response and tries to decode it as JSON,
and on absence of braces, decode failure, or a decoded object whose fields
are all null/absent, the tier is treated as failed and the result is
exactly what the regex fallback tier extracts from the text. -/
theorem c5_defensive_parse_falls_back (text raw : String)
    (hlen : 40 ≤ text.length)
    (hcond : braceExtract (pyStrip raw) = none ∨
      (∃ sub, braceExtract (pyStrip raw) = some sub ∧ jsonLoads sub = none) ∨
      (∀ kv ∈ Docai.geminiDecode raw, kv.2 = JVal.jnull)) :
    Docai.extract_with_gemini text (Except.ok raw) = Docai.regexTierResult text := by
  have hnull : ∀ kv ∈ Docai.geminiDecode raw, kv.2 = JVal.jnull := by
    rcases hcond with hb | ⟨sub, hsub, hjson⟩ | hn
    · intro kv hkv
      simp only [Docai.geminiDecode] at hkv
      by_cases hre : pyStrip raw = ""
      · rw [if_pos hre] at hkv; cases hkv
      · rw [if_neg hre] at hkv
        simp only [hb] at hkv
        cases hkv
    · intro kv hkv
      simp only [Docai.geminiDecode] at hkv
      by_cases hre : pyStrip raw = ""
      · rw [if_pos hre] at hkv; cases hkv
      · rw [if_neg hre] at hkv
        simp only [hsub, hjson] at hkv
        cases hkv
    · exact hn
  have hfalse : anyTruthy (Docai.geminiDecode raw) = false := anyTruthy_allnull _ hnull
  have hlt : ¬(text.length < 40) := not_lt.mpr hlen
  unfold Docai.extract_with_gemini
  rw [if_neg hlt]
  simp only [hfalse, Bool.not_false, Bool.or_true, if_true]
  unfold Docai.regexTierResult
  exact congrArg Docai.runExtract (fallback_insensitive text _ hnull)

def c5text : String :=
  "請求書 株式会社ウィット 御中 支払期限 2025年9月30日 合計 ¥75,416 小計 ¥68,560 お世話になっております"

/-- Witness for C5: a braceless conversational response contributes
nothing and the regex tier still populates the fields from the text. -/
theorem c5_defensive_parse_falls_back_witness :
    Docai.extract_with_gemini c5text (Except.ok "I cannot process this.") =
      Docai.regexTierResult c5text ∧
    (Docai.regexTierResult c5text).total = some (PyF.fin (mkRat 75416 1)) ∧
    (Docai.regexTierResult c5text).due_date = JVal.jstr "2025-09-30" :=
  ⟨c5_defensive_parse_falls_back c5text "I cannot process this." (by decide)
     (Or.inl (by decide)), by decide, rfl⟩

/-! ## Claim C6 — due-date window scan -/

theorem windowTry_sound (L : List String) (idx : Nat) (s : String)
    (h : AppMain.windowTry L idx = some s) :
    idx < L.length ∧ ∃ y mo d, dateSearchJp (L.getD idx "") = some (y, mo, d) ∧
      validDate y mo d = true ∧ s = isoFmt y mo d := by
  unfold AppMain.windowTry at h
  by_cases hidx : idx < L.length
  · rw [if_pos hidx] at h
    rcases hds : dateSearchJp (L.getD idx "") with _ | ⟨y, mo, d⟩
    · rw [hds] at h; cases h
    · rw [hds] at h
      have h' : (if validDate y mo d = true then some (isoFmt y mo d) else none)
          = some s := h
      by_cases hv : validDate y mo d = true
      · rw [if_pos hv] at h'
        exact ⟨hidx, y, mo, d, rfl, hv, (Option.some.inj h').symm⟩
      · rw [if_neg hv] at h'; cases h'
  · rw [if_neg hidx] at h; cases h

theorem windowScan_sound (L : List String) (i : Nat) (s : String)
    (h : AppMain.windowScan L i = some s) :
    ∃ j, j ≤ 2 ∧ i + j < L.length ∧
      ∃ y mo d, dateSearchJp (L.getD (i + j) "") = some (y, mo, d) ∧
        validDate y mo d = true ∧ s = isoFmt y mo d := by
  unfold AppMain.windowScan at h
  rcases h0 : AppMain.windowTry L i with _ | s0
  · rw [h0] at h
    rcases h1 : AppMain.windowTry L (i + 1) with _ | s1
    · rw [h1] at h
      obtain ⟨hidx, y, mo, d, hds, hv, hs⟩ := windowTry_sound L (i + 2) s h
      exact ⟨2, by omega, hidx, y, mo, d, hds, hv, hs⟩
    · rw [h1] at h
      obtain ⟨hidx, y, mo, d, hds, hv, hs⟩ := windowTry_sound L (i + 1) s1 h1
      exact ⟨1, by omega, hidx, y, mo, d, hds, hv,
        (Option.some.inj h).symm ▸ hs⟩
  · rw [h0] at h
    obtain ⟨hidx, y, mo, d, hds, hv, hs⟩ := windowTry_sound L i s0 h0
    refine ⟨0, by omega, by simpa using hidx, y, mo, d, by simpa using hds, hv, ?_⟩
    rw [(Option.some.inj h).symm]
    exact hs

theorem drop_cons_facts (L : List String) :
    ∀ (i : Nat) (a : String) (t : List String),
      L.drop i = a :: t →
      i < L.length ∧ L.getD i "" = a ∧ L.drop (i + 1) = t := by
  induction L with
  | nil =>
    intro i a t h
    rw [List.drop_nil] at h
    cases h
  | cons x Lt ih =>
    intro i a t h
    cases i with
    | zero =>
      rw [List.drop_zero] at h
      cases h
      refine ⟨by simp, rfl, ?_⟩
      rw [List.drop_succ_cons, List.drop_zero]
    | succ i' =>
      rw [List.drop_succ_cons] at h
      obtain ⟨h1, h2, h3⟩ := ih i' a t h
      refine ⟨by simpa using Nat.succ_lt_succ h1, by simpa using h2, ?_⟩
      rw [List.drop_succ_cons]
      exact h3

theorem dueLoopAux_sound (L : List String) :
    ∀ (rest : List String) (i : Nat) (s : String), rest = L.drop i →
      AppMain.dueLoopAux L rest i = some s →
      ∃ i', i ≤ i' ∧ i' < L.length ∧
        containsAnyKw AppMain.dueKeywords (L.getD i' "") = true ∧
        AppMain.windowScan L i' = some s := by
  intro rest
  induction rest with
  | nil => intro i s _ h; cases h
  | cons ln rest' ih =>
    intro i s hdrop h
    obtain ⟨hi, hgd, hdrop'⟩ := drop_cons_facts L i ln rest' hdrop.symm
    unfold AppMain.dueLoopAux at h
    by_cases hkw : containsAnyKw AppMain.dueKeywords ln = true
    · rw [if_pos hkw] at h
      rcases hw : AppMain.windowScan L i with _ | s0
      · rw [hw] at h
        obtain ⟨i', hle, hlt, hkw', hwin⟩ := ih (i + 1) s hdrop'.symm h
        exact ⟨i', by omega, hlt, hkw', hwin⟩
      · rw [hw] at h
        exact ⟨i, Nat.le_refl i, hi, by rw [hgd]; exact hkw,
          by rw [hw, Option.some.inj h]⟩
    · rw [if_neg hkw] at h
      obtain ⟨i', hle, hlt, hkw', hwin⟩ := ih (i + 1) s hdrop'.symm h
      exact ⟨i', by omega, hlt, hkw', hwin⟩

theorem dueLoopAux_complete (L : List String) :
    ∀ (rest : List String) (i : Nat), rest = L.drop i →
      (∃ i', i ≤ i' ∧ i' < L.length ∧
        containsAnyKw AppMain.dueKeywords (L.getD i' "") = true ∧
        AppMain.windowScan L i' ≠ none) →
      AppMain.dueLoopAux L rest i ≠ none := by
  intro rest
  induction rest with
  | nil =>
    intro i hdrop hex
    obtain ⟨i', hle, hlt, _, _⟩ := hex
    have hlen : L.length ≤ i := by
      by_contra hcon
      have : L.drop i ≠ [] := by
        intro hnil
        rw [List.drop_eq_nil_iff] at hnil
        omega
      exact this hdrop.symm
    omega
  | cons ln rest' ih =>
    intro i hdrop hex
    obtain ⟨i', hle, hlt, hkw', hwin⟩ := hex
    obtain ⟨hi, hgd, hdrop'⟩ := drop_cons_facts L i ln rest' hdrop.symm
    unfold AppMain.dueLoopAux
    by_cases hkw : containsAnyKw AppMain.dueKeywords ln = true
    · rw [if_pos hkw]
      rcases hw : AppMain.windowScan L i with _ | s0
      · apply ih (i + 1) hdrop'.symm
        refine ⟨i', ?_, hlt, hkw', hwin⟩
        rcases Nat.lt_or_ge i i' with h2 | h2
        · omega
        · have heq : i' = i := by omega
          rw [heq] at hwin
          exact absurd hw hwin
      · simp
    · rw [if_neg hkw]
      apply ih (i + 1) hdrop'.symm
      refine ⟨i', ?_, hlt, hkw', hwin⟩
      rcases Nat.lt_or_ge i i' with h2 | h2
      · omega
      · have heq : i' = i := by omega
        rw [heq, hgd] at hkw'
        exact absurd hkw' hkw

/-- C6 (confirmed): a due date is accepted exactly from a window of a
keyword line — the line itself or one of the next two lines — never from
further away; the first window that yields a valid calendar date wins, and
an invalid calendar date (or a dateless line) merely moves the scan on
without raising. -/
theorem c6_due_date_window :
    (∀ (text s : String), (AppMain.extract_from_text text).due_date = some s →
      ∃ i j, j ≤ 2 ∧ i < (procLines text).length ∧ i + j < (procLines text).length ∧
        containsAnyKw AppMain.dueKeywords ((procLines text).getD i "") = true ∧
        ∃ y mo d, dateSearchJp ((procLines text).getD (i + j) "") = some (y, mo, d) ∧
          validDate y mo d = true ∧ s = isoFmt y mo d) ∧
    (∀ text : String, text ≠ "" →
      (∃ i, i < (procLines text).length ∧
        containsAnyKw AppMain.dueKeywords ((procLines text).getD i "") = true ∧
        AppMain.windowScan (procLines text) i ≠ none) →
      (AppMain.extract_from_text text).due_date ≠ none) := by
  constructor
  · intro text s h
    by_cases htext : text = ""
    · subst htext
      simp [AppMain.extract_from_text, AppMain.initFields] at h
    · have hdd : (AppMain.extract_from_text text).due_date =
          AppMain.dueScan (procLines text) := by
        simp [AppMain.extract_from_text, if_neg htext]
      rw [hdd] at h
      obtain ⟨i', hle, hlt, hkw, hwin⟩ :=
        dueLoopAux_sound (procLines text) (procLines text) 0 s
          (List.drop_zero _).symm h
      obtain ⟨j, hj2, hij, y, mo, d, hds, hv, hs⟩ :=
        windowScan_sound _ i' s hwin
      exact ⟨i', j, hj2, hlt, hij, hkw, y, mo, d, hds, hv, hs⟩
  · intro text htext hex
    have hdd : (AppMain.extract_from_text text).due_date =
        AppMain.dueScan (procLines text) := by
      simp [AppMain.extract_from_text, if_neg htext]
    rw [hdd]
    obtain ⟨i', hlt, hkw', hwin⟩ := hex
    exact dueLoopAux_complete (procLines text) (procLines text) 0
      (List.drop_zero _).symm ⟨i', Nat.zero_le i', hlt, hkw', hwin⟩

def c6textA : String := "お支払期限
のご案内
2025年9月30日
株式会社サンプル"

def c6textB : String := "支払期限までに
2025年2月30日
2025年3月1日"

def c6textC : String := "お支払期限
一
二
2025年9月30日"

/-- Witness for C6: the window finds a date two lines below the keyword
line; an invalid calendar date is skipped in favour of the next line; and
a date on the third line after the keyword line is out of the window. -/
theorem c6_due_date_window_witness :
    (∃ i j, j ≤ 2 ∧ i < (procLines c6textA).length ∧
      i + j < (procLines c6textA).length ∧
      containsAnyKw AppMain.dueKeywords ((procLines c6textA).getD i "") = true ∧
      ∃ y mo d, dateSearchJp ((procLines c6textA).getD (i + j) "") = some (y, mo, d) ∧
        validDate y mo d = true ∧ "2025-09-30" = isoFmt y mo d) ∧
    (AppMain.extract_from_text c6textB).due_date ≠ none ∧
    (AppMain.extract_from_text c6textB).due_date = some "2025-03-01" ∧
    (AppMain.extract_from_text c6textC).due_date = none :=
  ⟨c6_due_date_window.1 c6textA "2025-09-30" (by decide),
   c6_due_date_window.2 c6textB (by decide)
     ⟨0, by decide, by decide, by decide⟩,
   by decide, by decide⟩

end Invoice
